import Mathlib

/-!
# Verification of the board-game rule engines

A shallow embedding, in Lean 4, of the rule-engine layer of the
`astrbot_plugin_riddlegame` repository (files `src/games/go.py`,
`src/games/gomoku.py`, `src/games/xiangqi.py`, `src/games/junqi.py`,
`src/games/tictactoe.py`), together with theorems checking the
natural-language specification against the code.

Modelling conventions:

* Python `int` fields are modelled as `Int` (counters that the code can
  decrement) or `Nat` (board sizes and indices that are only ever
  non-negative); Python `float` scores (integer counts plus the komi `6.5`)
  are modelled exactly as `ℚ`.
* Boards are modelled as total functions from the cell index to the cell
  value; the Python code only ever indexes in range, so the two views agree
  on every executed access.  List-valued boards are kept for the go board
  hash, which the source materialises as a tuple.
* Mutation is modelled by explicit state passing: every operation takes the
  session record and returns the updated record together with the
  `(ok, message)` pair that the Python method returns.
* Python `while` loops over a worklist (flood fill, territory scan) are
  modelled with an explicit fuel argument large enough for the loop to run
  to completion; the fuel bound is proved sufficient where a claim needs it.
* `random.shuffle` (junqi board setup) is modelled nondeterministically: the
  reachability relation admits any initial face-down arrangement.
-/

namespace GoGame

/-- `Stone` enum from `go.py`. -/
inductive Stone where
  | EMPTY
  | BLACK
  | WHITE
deriving DecidableEq, Repr

/-- `Stone.value`: the numeric value of the enum member, used by the board
hash. -/
def Stone.value : Stone → Nat
  | .EMPTY => 0
  | .BLACK => 1
  | .WHITE => 2

/-- The `GoGame` dataclass state.  The board is a total function from cell
index to stone; `komi` and the scores are exact rationals. -/
structure State where
  board_size : Nat
  player_black : String
  player_white : Option String
  board : Nat → Stone
  current_turn : Stone
  captured_black : Int
  captured_white : Int
  move_count : Int
  last_move : Option Nat
  ko_point : Option Nat
  is_finished : Bool
  winner : Option Stone
  consecutive_passes : Int
  score_black : ℚ
  score_white : ℚ
  komi : ℚ
  board_history : List (List Nat)
  last_board_state : Option (Nat → Stone)
  last_captured : Nat
  last_player : Option Stone
  can_undo : Bool
  score_request_by : Option String

/-- `GoGame.__post_init__` / `GoManager.create_game`: a fresh game. -/
def init (board_size : Nat) (player_id : String) : State where
  board_size := board_size
  player_black := player_id
  player_white := none
  board := fun _ => Stone.EMPTY
  current_turn := Stone.BLACK
  captured_black := 0
  captured_white := 0
  move_count := 0
  last_move := none
  ko_point := none
  is_finished := false
  winner := none
  consecutive_passes := 0
  score_black := 0
  score_white := 0
  komi := 13 / 2
  board_history := []
  last_board_state := none
  last_captured := 0
  last_player := none
  can_undo := false
  score_request_by := none

/-- `GoGame._xy_to_pos`. -/
def xy_to_pos (board_size x y : Nat) : Nat := y * board_size + x

/-- `GoGame._get_neighbors`: the up-to-four orthogonal neighbours of a cell,
in the source's order (left, right, down, up). -/
def get_neighbors (board_size pos : Nat) : List Nat :=
  let x := pos % board_size
  let y := pos / board_size
  (if 0 < x then [xy_to_pos board_size (x - 1) y] else []) ++
  (if x < board_size - 1 then [xy_to_pos board_size (x + 1) y] else []) ++
  (if 0 < y then [xy_to_pos board_size x (y - 1)] else []) ++
  (if y < board_size - 1 then [xy_to_pos board_size x (y + 1)] else [])

/-- The worklist loop of `GoGame._find_group`.  The Python list `to_check`
pushes and pops at its back; it is modelled here with the top of the stack
at the head, so pushing the neighbour list appends its reverse in front. -/
def find_group_loop (board_size : Nat) (board : Nat → Stone) (stone : Stone) :
    Nat → List Nat → Finset Nat → Finset Nat
  | _, [], group => group
  | 0, _ :: _, group => group
  | fuel + 1, current :: rest, group =>
    if current ∈ group then
      find_group_loop board_size board stone fuel rest group
    else if board current = stone then
      find_group_loop board_size board stone fuel
        (((get_neighbors board_size current).filter
            (fun n => decide (n ∉ group))).reverse ++ rest)
        (insert current group)
    else
      find_group_loop board_size board stone fuel rest group

/-- `GoGame._find_group`: the maximal same-colour connected component of
`pos`.  The fuel `5 * board_size ^ 2 + 1` is enough for the worklist to
drain (proved below). -/
def find_group (board_size : Nat) (board : Nat → Stone) (pos : Nat) :
    Finset Nat :=
  if board pos = Stone.EMPTY then ∅
  else find_group_loop board_size board (board pos)
    (5 * (board_size * board_size) + 1) [pos] ∅

/-- `GoGame._count_liberties`: the number of distinct empty cells adjacent
to some member of the group. -/
def count_liberties (board_size : Nat) (board : Nat → Stone)
    (group : Finset Nat) : Nat :=
  (group.biUnion fun pos =>
    ((get_neighbors board_size pos).filter
      (fun n => decide (board n = Stone.EMPTY))).toFinset).card

/-- `GoGame._capture_stones` (the board mutation part): every cell of the
group becomes empty. -/
def capture_stones (board : Nat → Stone) (group : Finset Nat) :
    Nat → Stone :=
  fun pos => if pos ∈ group then Stone.EMPTY else board pos

/-- `GoGame._get_opponent`. -/
def get_opponent (stone : Stone) : Stone :=
  if stone = Stone.BLACK then Stone.WHITE else Stone.BLACK

/-- `GoGame._get_board_hash`: the tuple of the numeric values of the board
cells. -/
def get_board_hash (board_size : Nat) (board : Nat → Stone) : List Nat :=
  (List.range (board_size * board_size)).map fun pos => (board pos).value

/-- `GoGame.join`. -/
def join (g : State) (player_id : String) : State × Bool :=
  if g.player_white ≠ none then (g, false)
  else if player_id = g.player_black then (g, false)
  else ({ g with player_white := some player_id }, true)

/-- The capture scan inside `GoGame.make_move`: for each neighbour of the
placed stone, in order, capture its group when it is opponent-coloured and
has no liberties on the current board.  Returns the board after the scan and
the number of stones captured. -/
def capture_scan (board_size : Nat) (opponent : Stone) :
    List Nat → (Nat → Stone) → Nat → (Nat → Stone) × Nat
  | [], board, captured => (board, captured)
  | neighbor :: rest, board, captured =>
    if board neighbor = opponent then
      let group := find_group board_size board neighbor
      if count_liberties board_size board group = 0 then
        capture_scan board_size opponent rest
          (capture_stones board group) (captured + group.card)
      else capture_scan board_size opponent rest board captured
    else capture_scan board_size opponent rest board captured

/-- The suicide/superko checks and the commit at the end of
`GoGame.make_move`, with the post-capture board `board2` and capture count
`captured` passed explicitly.  The Python rollback restores the saved board
copy, which restores the state to exactly its prior value; the rollback
branches therefore return `{ g with board := g.board }`
(`saved_board := g.board`). -/
def make_move_finish (g : State) (pos : Nat) (board2 : Nat → Stone)
    (captured : Nat) : State × Bool × String :=
  if count_liberties g.board_size board2 (find_group g.board_size board2 pos) = 0 then
    ({ g with board := g.board }, false, "禁止自杀（落子后无气）")
  else if get_board_hash g.board_size board2 ∈ g.board_history then
    ({ g with board := g.board }, false, "禁止全局同型重复（超级劫规则）")
  else
    ({ g with
        board := board2
        captured_white :=
          if g.current_turn = Stone.BLACK then g.captured_white + captured
          else g.captured_white
        captured_black :=
          if g.current_turn = Stone.BLACK then g.captured_black
          else g.captured_black + captured
        board_history := g.board_history ++ [get_board_hash g.board_size board2]
        last_board_state := some g.board
        last_captured := captured
        last_player := some g.current_turn
        can_undo := true
        last_move := some pos
        move_count := g.move_count + 1
        consecutive_passes := 0
        ko_point := none
        score_request_by := none
        current_turn := get_opponent g.current_turn }, true, "落子成功")

/-- The body of `GoGame.make_move` acting at a validated empty cell `pos`:
tentative placement, capture of dead neighbour groups, then
`make_move_finish`. -/
def make_move_at (g : State) (pos : Nat) : State × Bool × String :=
  let stone := g.current_turn
  let opponent := get_opponent stone
  let board1 : Nat → Stone := fun p => if p = pos then stone else g.board p
  let scanned := capture_scan g.board_size opponent
    (get_neighbors g.board_size pos) board1 0
  make_move_finish g pos scanned.1 scanned.2

/-- `GoGame.make_move`: the guard checks, then `make_move_at`. -/
def make_move (g : State) (player_id : String) (x y : Int) :
    State × Bool × String :=
  if g.is_finished then (g, false, "游戏已结束")
  else if g.player_white = none then (g, false, "等待对手加入")
  else if g.current_turn = Stone.BLACK ∧ player_id ≠ g.player_black then
    (g, false, "现在是黑方回合")
  else if g.current_turn = Stone.WHITE ∧ some player_id ≠ g.player_white then
    (g, false, "现在是白方回合")
  else if ¬ (0 ≤ x ∧ x < (g.board_size : Int) ∧ 0 ≤ y ∧ y < (g.board_size : Int)) then
    (g, false, "坐标超出范围（1-" ++ toString g.board_size ++ "）")
  else
    let pos := xy_to_pos g.board_size x.toNat y.toNat
    if g.board pos ≠ Stone.EMPTY then (g, false, "该位置已有棋子")
    else make_move_at g pos

/-- The region worklist loop inside `GoGame.count_territory`: flood fill of
one maximal empty region, collecting the colours bordering it.  Same stack
convention as `find_group_loop`. -/
def region_loop (board_size : Nat) (board : Nat → Stone) :
    Nat → List Nat → Finset Nat → Finset Stone → Finset Nat × Finset Stone
  | _, [], region, borders => (region, borders)
  | 0, _ :: _, region, borders => (region, borders)
  | fuel + 1, curr :: rest, region, borders =>
    if curr ∈ region then region_loop board_size board fuel rest region borders
    else if board curr = Stone.EMPTY then
      region_loop board_size board fuel
        (((get_neighbors board_size curr).filter
            (fun n => decide (n ∉ region))).reverse ++ rest)
        (insert curr region) borders
    else region_loop board_size board fuel rest region (insert (board curr) borders)

/-- The outer loop of `GoGame.count_territory`: visit every cell, flood-fill
each unvisited empty region and attribute it when bordered by one colour
only.  The Python code grows `visited` inside the region loop; the final
`visited` is the same union of the regions found so far. -/
def territory_scan (board_size : Nat) (board : Nat → Stone) :
    List Nat → Finset Nat → Nat → Nat → Nat × Nat
  | [], _, black_territory, white_territory => (black_territory, white_territory)
  | pos :: rest, visited, black_territory, white_territory =>
    if pos ∈ visited ∨ board pos ≠ Stone.EMPTY then
      territory_scan board_size board rest visited black_territory white_territory
    else
      let rb := region_loop board_size board
        (5 * (board_size * board_size) + 1) [pos] ∅ ∅
      let visited' := visited ∪ rb.1
      if rb.2 = {Stone.BLACK} then
        territory_scan board_size board rest visited'
          (black_territory + rb.1.card) white_territory
      else if rb.2 = {Stone.WHITE} then
        territory_scan board_size board rest visited'
          black_territory (white_territory + rb.1.card)
      else territory_scan board_size board rest visited'
        black_territory white_territory

/-- `GoGame.count_territory` (scores only; the details dictionary is display
glue).  Chinese rules: stones plus surrounded territory, komi to white. -/
def count_territory (g : State) : ℚ × ℚ :=
  let cells := List.range (g.board_size * g.board_size)
  let black_stones := (cells.filter fun p => decide (g.board p = Stone.BLACK)).length
  let white_stones := (cells.filter fun p => decide (g.board p = Stone.WHITE)).length
  let t := territory_scan g.board_size g.board cells ∅ 0 0
  (((black_stones + t.1 : Nat) : ℚ), ((white_stones + t.2 : Nat) : ℚ) + g.komi)

/-- `GoGame._finish_with_score`: record the scores and the winner (winner
left untouched on a tie). -/
def finish_with_score (g : State) : State :=
  let sc := count_territory g
  { g with
      score_black := sc.1
      score_white := sc.2
      winner :=
        if sc.1 > sc.2 then some Stone.BLACK
        else if sc.2 > sc.1 then some Stone.WHITE
        else g.winner }

/-- `GoGame.pass_turn`. -/
def pass_turn (g : State) (player_id : String) : State × Bool × String :=
  if g.is_finished then (g, false, "游戏已结束")
  else if g.player_white = none then (g, false, "等待对手加入")
  else if g.current_turn = Stone.BLACK ∧ player_id ≠ g.player_black then
    (g, false, "现在是黑方回合")
  else if g.current_turn = Stone.WHITE ∧ some player_id ≠ g.player_white then
    (g, false, "现在是白方回合")
  else
    let g1 := { g with
      consecutive_passes := g.consecutive_passes + 1
      ko_point := none
      can_undo := false
      score_request_by := none
      current_turn := get_opponent g.current_turn }
    if g1.consecutive_passes ≥ 2 then
      (finish_with_score { g1 with is_finished := true }, true, "双方连续虚着，游戏结束")
    else (g1, true, "虚着")

/-- `GoGame.undo`.  Python assigns `self.current_turn = self.last_player`,
which is always an actual stone when `can_undo` holds (the only writer of
`can_undo := true` also sets `last_player`); the `Option.getD` default is
never reached from a session state. -/
def undo (g : State) (player_id : String) : State × Bool × String :=
  if g.is_finished then (g, false, "游戏已结束")
  else if g.can_undo = false ∨ g.last_board_state.isNone then
    (g, false, "当前无法悔棋")
  else if g.last_player = some Stone.BLACK ∧ player_id ≠ g.player_black then
    (g, false, "只有刚落子的玩家可以请求悔棋")
  else if g.last_player = some Stone.WHITE ∧ some player_id ≠ g.player_white then
    (g, false, "只有刚落子的玩家可以请求悔棋")
  else
    ({ g with
        board := g.last_board_state.getD g.board
        captured_white :=
          if g.last_player = some Stone.BLACK then g.captured_white - g.last_captured
          else g.captured_white
        captured_black :=
          if g.last_player = some Stone.BLACK then g.captured_black
          else g.captured_black - g.last_captured
        board_history := g.board_history.dropLast
        current_turn := g.last_player.getD g.current_turn
        move_count := g.move_count - 1
        last_move := none
        can_undo := false
        last_board_state := none }, true, "悔棋成功")

/-- `GoGame.request_score`.  Python tests membership in
`[self.player_black, self.player_white]`; a string never equals `None`. -/
def request_score (g : State) (player_id : String) : State × Bool × String :=
  if g.is_finished then (g, false, "游戏已结束")
  else if player_id ≠ g.player_black ∧ some player_id ≠ g.player_white then
    (g, false, "你不是游戏参与者")
  else if g.score_request_by = none then
    ({ g with score_request_by := some player_id }, true, "request_pending")
  else if g.score_request_by = some player_id then
    (g, false, "你已经请求过计分了，等待对方确认")
  else (finish_with_score { g with is_finished := true }, true, "agreed")

/-- `GoGame.reject_score`.  Note: the source checks only that the caller is
not the requester — there is no participant check. -/
def reject_score (g : State) (player_id : String) : State × Bool × String :=
  if g.score_request_by = none then (g, false, "没有待处理的计分请求")
  else if g.score_request_by = some player_id then
    (g, false, "你不能拒绝自己的请求")
  else ({ g with score_request_by := none }, true, "已拒绝计分请求，游戏继续")

/-- `GoGame.surrender`. -/
def surrender (g : State) (player_id : String) : State × Bool × String :=
  if g.is_finished then (g, false, "游戏已结束")
  else if player_id = g.player_black then
    ({ g with winner := some Stone.WHITE, is_finished := true }, true, "黑方认输")
  else if some player_id = g.player_white then
    ({ g with winner := some Stone.BLACK, is_finished := true }, true, "白方认输")
  else (g, false, "你不是游戏参与者")

/-- Session states reachable through the registry: `GoManager.create_game`
(sizes 9/13/19) followed by any sequence of the session operations. -/
inductive Reachable : State → Prop
  | create (board_size : Nat) (player_id : String)
      (h : board_size = 9 ∨ board_size = 13 ∨ board_size = 19) :
      Reachable (init board_size player_id)
  | join (g : State) (player_id : String) :
      Reachable g → Reachable (GoGame.join g player_id).1
  | make_move (g : State) (player_id : String) (x y : Int) :
      Reachable g → Reachable (GoGame.make_move g player_id x y).1
  | pass_turn (g : State) (player_id : String) :
      Reachable g → Reachable (GoGame.pass_turn g player_id).1
  | undo (g : State) (player_id : String) :
      Reachable g → Reachable (GoGame.undo g player_id).1
  | request_score (g : State) (player_id : String) :
      Reachable g → Reachable (GoGame.request_score g player_id).1
  | reject_score (g : State) (player_id : String) :
      Reachable g → Reachable (GoGame.reject_score g player_id).1
  | surrender (g : State) (player_id : String) :
      Reachable g → Reachable (GoGame.surrender g player_id).1

end GoGame

namespace Gomoku

/-- `Stone` enum from `gomoku.py` (kept distinct from the go variant). -/
inductive Stone where
  | EMPTY
  | BLACK
  | WHITE
deriving DecidableEq, Repr

/-- The `GomokuGame` dataclass state. -/
structure State where
  board_size : Nat
  player_black : String
  player_white : Option String
  board : Nat → Stone
  current_turn : Stone
  move_count : Int
  last_move : Option Nat
  is_finished : Bool
  winner : Option Stone
  win_line : Option (List Nat)

/-- `GomokuGame.__post_init__` / `GomokuManager.create_game`. -/
def init (board_size : Nat) (player_id : String) : State where
  board_size := board_size
  player_black := player_id
  player_white := none
  board := fun _ => Stone.EMPTY
  current_turn := Stone.BLACK
  move_count := 0
  last_move := none
  is_finished := false
  winner := none
  win_line := none

/-- `GomokuGame._xy_to_pos`. -/
def xy_to_pos (board_size x y : Nat) : Nat := y * board_size + x

/-- `GomokuGame.join`. -/
def join (g : State) (player_id : String) : State × Bool :=
  if g.player_white ≠ none then (g, false)
  else if player_id = g.player_black then (g, false)
  else ({ g with player_white := some player_id }, true)

/-- One direction scan of `GomokuGame._check_win`: walk up to four steps
from `(x, y)` along `(dx, dy)` starting at step `i`, collecting positions
while the cell is on the board and holds `stone`; stop at the first bound
or colour break. -/
def scan_line (board_size : Nat) (board : Nat → Stone) (stone : Stone)
    (x y dx dy : Int) : Int → Nat → List Nat
  | _, 0 => []
  | i, fuel + 1 =>
    let nx := x + dx * i
    let ny := y + dy * i
    if 0 ≤ nx ∧ nx < (board_size : Int) ∧ 0 ≤ ny ∧ ny < (board_size : Int) then
      let npos := xy_to_pos board_size nx.toNat ny.toNat
      if board npos = stone then
        npos :: scan_line board_size board stone x y dx dy (i + 1) fuel
      else []
    else []

/-- The direction loop of `GomokuGame._check_win`: try the four axes in the
source's order, returning the first line of five or more. -/
def check_win_dirs (board_size : Nat) (board : Nat → Stone) (stone : Stone)
    (x y : Int) (pos : Nat) : List (Int × Int) → Option (List Nat)
  | [] => none
  | (dx, dy) :: rest =>
    let line := pos ::
      (scan_line board_size board stone x y dx dy 1 4 ++
       scan_line board_size board stone x y (-dx) (-dy) 1 4)
    if 5 ≤ line.length then some line
    else check_win_dirs board_size board stone x y pos rest

/-- `GomokuGame._check_win`; the returned line always contains `pos`, so a
returned list is never empty and Python's truthiness test on it agrees with
the `Option` match. -/
def check_win (board_size : Nat) (board : Nat → Stone) (pos : Nat) :
    Option (List Nat) :=
  let stone := board pos
  if stone = Stone.EMPTY then none
  else
    let x : Int := (pos % board_size : Nat)
    let y : Int := (pos / board_size : Nat)
    check_win_dirs board_size board stone x y pos [(1, 0), (0, 1), (1, 1), (1, -1)]

/-- `GomokuGame.make_move`. -/
def make_move (g : State) (player_id : String) (x y : Int) :
    State × Bool × String :=
  if g.is_finished then (g, false, "游戏已结束")
  else if g.player_white = none then (g, false, "等待对手加入")
  else if g.current_turn = Stone.BLACK ∧ player_id ≠ g.player_black then
    (g, false, "现在是黑方回合")
  else if g.current_turn = Stone.WHITE ∧ some player_id ≠ g.player_white then
    (g, false, "现在是白方回合")
  else if ¬ (0 ≤ x ∧ x < (g.board_size : Int) ∧ 0 ≤ y ∧ y < (g.board_size : Int)) then
    (g, false, "坐标超出范围（1-" ++ toString g.board_size ++ "）")
  else
    let pos := xy_to_pos g.board_size x.toNat y.toNat
    if g.board pos ≠ Stone.EMPTY then (g, false, "该位置已有棋子")
    else
      let g1 := { g with
        board := fun p => if p = pos then g.current_turn else g.board p
        last_move := some pos
        move_count := g.move_count + 1 }
      match check_win g1.board_size g1.board pos with
      | some line =>
        ({ g1 with
            is_finished := true
            winner := some g.current_turn
            win_line := some line }, true, "五子连珠！游戏结束")
      | none =>
        if (g.board_size * g.board_size : Int) ≤ g1.move_count then
          ({ g1 with is_finished := true }, true, "棋盘已满，平局！")
        else
          ({ g1 with
              current_turn :=
                if g.current_turn = Stone.BLACK then Stone.WHITE else Stone.BLACK },
            true, "落子成功")

/-- `GomokuGame.surrender`. -/
def surrender (g : State) (player_id : String) : State × Bool × String :=
  if g.is_finished then (g, false, "游戏已结束")
  else if player_id = g.player_black then
    ({ g with winner := some Stone.WHITE, is_finished := true }, true, "黑方认输")
  else if some player_id = g.player_white then
    ({ g with winner := some Stone.BLACK, is_finished := true }, true, "白方认输")
  else (g, false, "你不是游戏参与者")

/-- Session states reachable through `GomokuManager` (board sizes 13/15/19)
and the session operations. -/
inductive Reachable : State → Prop
  | create (board_size : Nat) (player_id : String)
      (h : board_size = 13 ∨ board_size = 15 ∨ board_size = 19) :
      Reachable (init board_size player_id)
  | join (g : State) (player_id : String) :
      Reachable g → Reachable (Gomoku.join g player_id).1
  | make_move (g : State) (player_id : String) (x y : Int) :
      Reachable g → Reachable (Gomoku.make_move g player_id x y).1
  | surrender (g : State) (player_id : String) :
      Reachable g → Reachable (Gomoku.surrender g player_id).1

end Gomoku

namespace Xiangqi

/-- `Piece` enum from `xiangqi.py`. -/
inductive Piece where
  | EMPTY
  | R_KING | R_ADVISOR | R_ELEPHANT | R_HORSE | R_CHARIOT | R_CANNON | R_SOLDIER
  | B_KING | B_ADVISOR | B_ELEPHANT | B_HORSE | B_CHARIOT | B_CANNON | B_SOLDIER
deriving DecidableEq, Repr

/-- `Side` enum from `xiangqi.py`. -/
inductive Side where
  | RED
  | BLACK
deriving DecidableEq, Repr

/-- `get_piece_side`: red for values 1–7, black for 8–14, none when empty. -/
def get_piece_side : Piece → Option Side
  | .EMPTY => none
  | .R_KING | .R_ADVISOR | .R_ELEPHANT | .R_HORSE
  | .R_CHARIOT | .R_CANNON | .R_SOLDIER => some .RED
  | _ => some .BLACK

/-- The `XiangqiGame` dataclass state. -/
structure State where
  player_red : String
  player_black : Option String
  board : Nat → Piece
  current_turn : Side
  move_count : Int
  last_move : Option (Nat × Nat)
  is_finished : Bool
  winner : Option Side
  in_check : Bool

/-- `XiangqiGame._rc_to_pos`. -/
def rc_to_pos (row col : Nat) : Nat := row * 9 + col

/-- `XiangqiGame._get_opponent`. -/
def get_opponent (side : Side) : Side :=
  if side = Side.RED then Side.BLACK else Side.RED

/-- `XiangqiGame._is_in_palace`. -/
def is_in_palace (row col : Nat) (side : Side) : Bool :=
  if col < 3 ∨ 5 < col then false
  else if side = Side.RED then decide (row ≤ 2)
  else decide (7 ≤ row ∧ row ≤ 9)

/-- `XiangqiGame._is_across_river`. -/
def is_across_river (row : Nat) (side : Side) : Bool :=
  if side = Side.RED then decide (5 ≤ row) else decide (row ≤ 4)

/-- `XiangqiGame._get_pieces_between`: the number of occupied cells strictly
between two cells on a shared rank or file (0 when the cells are not in
line). -/
def get_pieces_between (board : Nat → Piece) (from_pos to_pos : Nat) : Nat :=
  let from_row := from_pos / 9
  let from_col := from_pos % 9
  let to_row := to_pos / 9
  let to_col := to_pos % 9
  if from_row = to_row then
    ((List.range' (min from_col to_col + 1)
        (max from_col to_col - (min from_col to_col + 1))).filter
      fun c => decide (board (rc_to_pos from_row c) ≠ Piece.EMPTY)).length
  else if from_col = to_col then
    ((List.range' (min from_row to_row + 1)
        (max from_row to_row - (min from_row to_row + 1))).filter
      fun r => decide (board (rc_to_pos r from_col) ≠ Piece.EMPTY)).length
  else 0

/-- `XiangqiGame._is_valid_piece_move`: per-piece geometric legality, not
considering check. -/
def is_valid_piece_move (board : Nat → Piece) (from_pos to_pos : Nat) : Bool :=
  let piece := board from_pos
  if piece = Piece.EMPTY then false
  else
    let from_row := from_pos / 9
    let from_col := from_pos % 9
    let to_row := to_pos / 9
    let to_col := to_pos % 9
    if from_pos = to_pos then false
    else
      let target := board to_pos
      if target ≠ Piece.EMPTY ∧ get_piece_side piece = get_piece_side target then
        false
      else
        match get_piece_side piece with
        | none => false
        | some side =>
          let dr : Int := (to_row : Int) - (from_row : Int)
          let dc : Int := (to_col : Int) - (from_col : Int)
          if piece = Piece.R_KING ∨ piece = Piece.B_KING then
            if is_in_palace to_row to_col side = false then false
            else decide (dr.natAbs + dc.natAbs = 1)
          else if piece = Piece.R_ADVISOR ∨ piece = Piece.B_ADVISOR then
            if is_in_palace to_row to_col side = false then false
            else decide (dr.natAbs = 1 ∧ dc.natAbs = 1)
          else if piece = Piece.R_ELEPHANT ∨ piece = Piece.B_ELEPHANT then
            if is_across_river to_row side then false
            else if ¬ (dr.natAbs = 2 ∧ dc.natAbs = 2) then false
            else
              let eye_row := ((from_row : Int) + dr / 2).toNat
              let eye_col := ((from_col : Int) + dc / 2).toNat
              decide (board (rc_to_pos eye_row eye_col) = Piece.EMPTY)
          else if piece = Piece.R_HORSE ∨ piece = Piece.B_HORSE then
            if ¬ ((dr.natAbs = 2 ∧ dc.natAbs = 1) ∨ (dr.natAbs = 1 ∧ dc.natAbs = 2)) then
              false
            else
              let leg_row : Int :=
                if dr.natAbs = 2 then (from_row : Int) + (if 0 < dr then 1 else -1)
                else (from_row : Int)
              let leg_col : Int :=
                if dr.natAbs = 2 then (from_col : Int)
                else (from_col : Int) + (if 0 < dc then 1 else -1)
              decide (board (rc_to_pos leg_row.toNat leg_col.toNat) = Piece.EMPTY)
          else if piece = Piece.R_CHARIOT ∨ piece = Piece.B_CHARIOT then
            if dr ≠ 0 ∧ dc ≠ 0 then false
            else decide (get_pieces_between board from_pos to_pos = 0)
          else if piece = Piece.R_CANNON ∨ piece = Piece.B_CANNON then
            if dr ≠ 0 ∧ dc ≠ 0 then false
            else
              let pieces_between := get_pieces_between board from_pos to_pos
              if target = Piece.EMPTY then decide (pieces_between = 0)
              else decide (pieces_between = 1)
          else if piece = Piece.R_SOLDIER ∨ piece = Piece.B_SOLDIER then
            if side = Side.RED then
              if is_across_river from_row side = false then decide (dr = 1 ∧ dc = 0)
              else if dr = 1 ∧ dc = 0 then true
              else decide (dr = 0 ∧ dc.natAbs = 1)
            else
              if is_across_river from_row side = false then decide (dr = -1 ∧ dc = 0)
              else if dr = -1 ∧ dc = 0 then true
              else decide (dr = 0 ∧ dc.natAbs = 1)
          else false

/-- `XiangqiGame._find_king`: index of the first cell holding the side's
king, scanning the board in order. -/
def find_king (board : Nat → Piece) (side : Side) : Option Nat :=
  let king := if side = Side.RED then Piece.R_KING else Piece.B_KING
  (List.range 90).find? fun i => decide (board i = king)

/-- `XiangqiGame._kings_facing`. -/
def kings_facing (board : Nat → Piece) : Bool :=
  match find_king board Side.RED, find_king board Side.BLACK with
  | some red_king_pos, some black_king_pos =>
    let red_row := red_king_pos / 9
    let red_col := red_king_pos % 9
    let black_row := black_king_pos / 9
    let black_col := black_king_pos % 9
    if red_col ≠ black_col then false
    else
      (List.range' (red_row + 1) (black_row - (red_row + 1))).all
        fun r => decide (board (rc_to_pos r red_col) = Piece.EMPTY)
  | _, _ => false

/-- `XiangqiGame._is_in_check`: a missing king counts as in check. -/
def is_in_check (board : Nat → Piece) (side : Side) : Bool :=
  match find_king board side with
  | none => true
  | some king_pos =>
    let opponent := get_opponent side
    if (List.range 90).any (fun i =>
        decide (get_piece_side (board i) = some opponent) &&
        is_valid_piece_move board i king_pos) then true
    else kings_facing board

/-- `XiangqiGame._has_valid_move`: trial-apply every pseudo-legal move of
the side and test whether some of them leaves the side neither in check nor
with facing kings. -/
def has_valid_move (board : Nat → Piece) (side : Side) : Bool :=
  (List.range 90).any fun from_pos =>
    decide (get_piece_side (board from_pos) = some side) &&
    (List.range 90).any fun to_pos =>
      is_valid_piece_move board from_pos to_pos &&
      (let piece := board from_pos
       let board2 : Nat → Piece := fun p =>
         if p = from_pos then Piece.EMPTY
         else if p = to_pos then piece else board p
       ! (is_in_check board2 side || kings_facing board2))

/-- The board after moving the piece at `fp` to `tp`
(`board[to_pos] = piece; board[from_pos] = EMPTY`). -/
def apply_move (board : Nat → Piece) (fp tp : Nat) : Nat → Piece :=
  fun p => if p = fp then Piece.EMPTY else if p = tp then board fp else board p

/-- The commit phase of `XiangqiGame.make_move`, after all per-piece
validation: the own-check/facing-kings test on the simulated board, then
the opponent check / checkmate / stalemate classification. -/
def make_move_commit (g : State) (fp tp : Nat) : State × Bool × String :=
  let board2 := apply_move g.board fp tp
  if is_in_check board2 g.current_turn || kings_facing board2 then
    (g, false, "走这步会被将军或将帅对脸")
  else
    let opponent := get_opponent g.current_turn
    let ic := is_in_check board2 opponent
    let g1 := { g with
      board := board2
      last_move := some (fp, tp)
      move_count := g.move_count + 1
      current_turn := opponent
      in_check := ic }
    if ic && ! has_valid_move board2 opponent then
      ({ g1 with is_finished := true, winner := some (get_opponent opponent) },
        true, "将死！游戏结束")
    else if !ic && ! has_valid_move board2 opponent then
      ({ g1 with is_finished := true, winner := some (get_opponent opponent) },
        true, "困毙！游戏结束")
    else (g1, true, if ic then "将军！" else "走棋成功")

/-- `XiangqiGame.make_move`.  The simulate-then-revert of the own-check test
is modelled by applying the move to a fresh board function; the rejection
branch returns the original state, exactly what the Python revert restores. -/
def make_move (g : State) (player_id : String) (from_pos to_pos : Int) :
    State × Bool × String :=
  if g.is_finished then (g, false, "游戏已结束")
  else if g.player_black = none then (g, false, "等待对手加入")
  else if g.current_turn = Side.RED ∧ player_id ≠ g.player_red then
    (g, false, "现在是红方回合")
  else if g.current_turn = Side.BLACK ∧ some player_id ≠ g.player_black then
    (g, false, "现在是黑方回合")
  else if ¬ (0 ≤ from_pos ∧ from_pos < 90 ∧ 0 ≤ to_pos ∧ to_pos < 90) then
    (g, false, "位置超出范围")
  else
    let fp := from_pos.toNat
    let tp := to_pos.toNat
    let piece := g.board fp
    if piece = Piece.EMPTY then (g, false, "起始位置没有棋子")
    else if get_piece_side piece ≠ some g.current_turn then
      (g, false, "只能移动自己的棋子")
    else if is_valid_piece_move g.board fp tp = false then
      (g, false, "走法不合规则")
    else make_move_commit g fp tp

/-- `XiangqiGame.surrender`. -/
def surrender (g : State) (player_id : String) : State × Bool × String :=
  if g.is_finished then (g, false, "游戏已结束")
  else if player_id = g.player_red then
    ({ g with winner := some Side.BLACK, is_finished := true }, true, "红方认输")
  else if some player_id = g.player_black then
    ({ g with winner := some Side.RED, is_finished := true }, true, "黑方认输")
  else (g, false, "你不是游戏参与者")

end Xiangqi

namespace Junqi

/-- `PieceType` enum from `junqi.py`. -/
inductive PieceType where
  | EMPTY | FLAG | MINE | BOMB | COMMANDER | GENERAL | DIVISION
  | BRIGADE | REGIMENT | BATTALION | COMPANY | PLATOON | ENGINEER
deriving DecidableEq, Repr

/-- `Side` enum from `junqi.py`. -/
inductive Side where
  | NONE
  | RED
  | BLUE
deriving DecidableEq, Repr

/-- The `PIECE_RANK` table (`dict.get` default 0 for flag/mine/bomb). -/
def PIECE_RANK : PieceType → Nat
  | .ENGINEER => 1
  | .PLATOON => 2
  | .COMPANY => 3
  | .BATTALION => 4
  | .REGIMENT => 5
  | .BRIGADE => 6
  | .DIVISION => 7
  | .GENERAL => 8
  | .COMMANDER => 9
  | _ => 0

/-- The `PIECE_NAMES` table. -/
def PIECE_NAMES : PieceType → String
  | .FLAG => "军旗"
  | .MINE => "地雷"
  | .BOMB => "炸弹"
  | .COMMANDER => "司令"
  | .GENERAL => "军长"
  | .DIVISION => "师长"
  | .BRIGADE => "旅长"
  | .REGIMENT => "团长"
  | .BATTALION => "营长"
  | .COMPANY => "连长"
  | .PLATOON => "排长"
  | .ENGINEER => "工兵"
  | .EMPTY => "?"

/-- The `Piece` dataclass. -/
structure Piece where
  piece_type : PieceType
  side : Side
  revealed : Bool
deriving DecidableEq, Repr

/-- `Piece.get_rank`. -/
def Piece.get_rank (p : Piece) : Nat := PIECE_RANK p.piece_type

/-- The `JunqiGame` dataclass state (`ROWS = 10`, `COLS = 6`). -/
structure State where
  player_a : String
  player_b : Option String
  player_a_side : Option Side
  board : Nat → Option Piece
  current_turn : Int
  move_count : Int
  last_action : Option String
  last_pos : Option Nat
  is_finished : Bool
  winner : Option String
  red_flag_captured : Bool
  blue_flag_captured : Bool

/-- `JunqiManager.create_game` / `JunqiGame._init_board`.  The random
face-down arrangement is modelled nondeterministically: any board whose
pieces are all unrevealed (the reachability relation quantifies over it). -/
def init (player_id : String) (board0 : Nat → Option Piece) : State where
  player_a := player_id
  player_b := none
  player_a_side := none
  board := board0
  current_turn := 1
  move_count := 0
  last_action := none
  last_pos := none
  is_finished := false
  winner := none
  red_flag_captured := false
  blue_flag_captured := false

/-- `JunqiGame._get_neighbors` (6 columns × 10 rows). -/
def get_neighbors (pos : Nat) : List Nat :=
  let x := pos % 6
  let y := pos / 6
  (if 0 < x then [y * 6 + (x - 1)] else []) ++
  (if x < 5 then [y * 6 + (x + 1)] else []) ++
  (if 0 < y then [(y - 1) * 6 + x] else []) ++
  (if y < 9 then [(y + 1) * 6 + x] else [])

/-- `JunqiGame.join`. -/
def join (g : State) (player_id : String) : State × Bool :=
  if g.player_b ≠ none then (g, false)
  else if player_id = g.player_a then (g, false)
  else ({ g with player_b := some player_id }, true)

/-- `JunqiGame.get_current_player`. -/
def get_current_player (g : State) : Option String :=
  if g.current_turn = 1 then some g.player_a else g.player_b

/-- `JunqiGame.get_player_side`. -/
def get_player_side (g : State) (player_id : String) : Option Side :=
  match g.player_a_side with
  | none => none
  | some a_side =>
    if player_id = g.player_a then some a_side
    else if some player_id = g.player_b then
      some (if a_side = Side.RED then Side.BLUE else Side.RED)
    else none

/-- `JunqiGame._switch_turn`. -/
def switch_turn (current_turn : Int) : Int :=
  if current_turn = 1 then 2 else 1

/-- `JunqiGame.flip`. -/
def flip (g : State) (player_id : String) (pos : Int) : State × Bool × String :=
  if g.is_finished then (g, false, "游戏已结束")
  else if g.player_b = none then (g, false, "等待对手加入")
  else if some player_id ≠ get_current_player g then (g, false, "还没轮到你")
  else if ¬ (0 ≤ pos ∧ pos < 60) then (g, false, "位置无效")
  else
    match g.board pos.toNat with
    | none => (g, false, "该位置没有棋子")
    | some piece =>
      if piece.revealed then (g, false, "该棋子已经翻开了")
      else
        let board' : Nat → Option Piece := fun p =>
          if p = pos.toNat then some { piece with revealed := true } else g.board p
        let action :=
          if g.player_a_side = none then
            "翻开 " ++ PIECE_NAMES piece.piece_type ++ "，成为" ++
              (if piece.side = Side.RED then "红方" else "蓝方")
          else "翻开 " ++ PIECE_NAMES piece.piece_type
        ({ g with
            board := board'
            player_a_side :=
              if g.player_a_side = none then some piece.side else g.player_a_side
            last_action := some action
            last_pos := some pos.toNat
            move_count := g.move_count + 1
            current_turn := switch_turn g.current_turn }, true, action)

/-- `JunqiGame._battle`: the outcome string for an attack. -/
def battle (attacker defender : Piece) : String :=
  if attacker.piece_type = PieceType.BOMB ∨ defender.piece_type = PieceType.BOMB then
    "draw"
  else if defender.piece_type = PieceType.MINE then
    if attacker.piece_type = PieceType.ENGINEER then "win" else "draw"
  else if defender.piece_type = PieceType.FLAG then "win"
  else if defender.get_rank < attacker.get_rank then "win"
  else if attacker.get_rank < defender.get_rank then "lose"
  else "draw"

/-- `JunqiGame._check_game_end`. -/
def check_game_end (g : State) : State :=
  if g.red_flag_captured then
    { g with
        is_finished := true
        winner :=
          if g.player_a_side = some Side.BLUE then some g.player_a else g.player_b }
  else if g.blue_flag_captured then
    { g with
        is_finished := true
        winner :=
          if g.player_a_side = some Side.RED then some g.player_a else g.player_b }
  else g

/-- The battle branch of `JunqiGame.move` (destination holds a revealed
enemy piece): resolve the battle, update the board, flag capture and
game-end bookkeeping. -/
def move_battle_commit (g : State) (piece target : Piece) (fp tp : Nat) :
    State × Bool × String :=
  let result := battle piece target
  let action :=
    if result = "win" then
      PIECE_NAMES piece.piece_type ++ " 吃掉 " ++ PIECE_NAMES target.piece_type
    else if result = "lose" then
      PIECE_NAMES piece.piece_type ++ " 被 " ++
        PIECE_NAMES target.piece_type ++ " 吃掉"
    else
      PIECE_NAMES piece.piece_type ++ " 与 " ++
        PIECE_NAMES target.piece_type ++ " 同归于尽"
  let board' : Nat → Option Piece :=
    if result = "win" then
      fun p => if p = fp then none
        else if p = tp then some piece else g.board p
    else if result = "lose" then
      fun p => if p = fp then none else g.board p
    else
      fun p => if p = fp then none
        else if p = tp then none else g.board p
  let g1 := { g with board := board', last_action := some action }
  let g2 :=
    if target.piece_type = PieceType.FLAG then
      check_game_end
        (if target.side = Side.RED then { g1 with red_flag_captured := true }
         else { g1 with blue_flag_captured := true })
    else g1
  ({ g2 with
      last_pos := some tp
      move_count := g2.move_count + 1
      current_turn := switch_turn g.current_turn }, true, action)

/-- The tail of `JunqiGame.move` after the per-piece validation: the
destination lookup, the plain relocation, and the battle branch. -/
def move_finish (g : State) (player_id : String) (piece : Piece) (fp tp : Nat) :
    State × Bool × String :=
  match g.board tp with
  | none =>
    let action := PIECE_NAMES piece.piece_type ++ " 移动"
    ({ g with
        board := fun p =>
          if p = fp then none
          else if p = tp then some piece else g.board p
        last_action := some action
        last_pos := some tp
        move_count := g.move_count + 1
        current_turn := switch_turn g.current_turn }, true, action)
  | some target =>
    if target.revealed = false then (g, false, "不能移动到未翻开的棋子上")
    else if some target.side = get_player_side g player_id then
      (g, false, "不能吃自己的棋子")
    else move_battle_commit g piece target fp tp

/-- `JunqiGame.move`. -/
def move (g : State) (player_id : String) (from_pos to_pos : Int) :
    State × Bool × String :=
  if g.is_finished then (g, false, "游戏已结束")
  else if g.player_b = none then (g, false, "等待对手加入")
  else if some player_id ≠ get_current_player g then (g, false, "还没轮到你")
  else if g.player_a_side = none then (g, false, "请先翻棋确定阵营")
  else if ¬ (0 ≤ from_pos ∧ from_pos < 60) then (g, false, "起始位置无效")
  else if ¬ (0 ≤ to_pos ∧ to_pos < 60) then (g, false, "目标位置无效")
  else
    let fp := from_pos.toNat
    let tp := to_pos.toNat
    match g.board fp with
    | none => (g, false, "起始位置没有棋子")
    | some piece =>
      if piece.revealed = false then (g, false, "不能移动未翻开的棋子")
      else if some piece.side ≠ get_player_side g player_id then
        (g, false, "这不是你的棋子")
      else if piece.piece_type = PieceType.MINE ∨ piece.piece_type = PieceType.FLAG then
        (g, false, PIECE_NAMES piece.piece_type ++ "不能移动")
      else if tp ∉ get_neighbors fp then (g, false, "只能移动到相邻位置")
      else move_finish g player_id piece fp tp

/-- `JunqiGame.surrender`. -/
def surrender (g : State) (player_id : String) : State × Bool × String :=
  if g.is_finished then (g, false, "游戏已结束")
  else if player_id = g.player_a then
    ({ g with winner := g.player_b, is_finished := true }, true, "玩家A认输")
  else if some player_id = g.player_b then
    ({ g with winner := some g.player_a, is_finished := true }, true, "玩家B认输")
  else (g, false, "你不是游戏参与者")

/-- Session states reachable through `JunqiManager`: creation with any
face-down arrangement, then joins, flips, moves and surrenders. -/
inductive Reachable : State → Prop
  | create (player_id : String) (board0 : Nat → Option Piece)
      (h : ∀ pos p, board0 pos = some p → p.revealed = false) :
      Reachable (init player_id board0)
  | join (g : State) (player_id : String) :
      Reachable g → Reachable (Junqi.join g player_id).1
  | flip (g : State) (player_id : String) (pos : Int) :
      Reachable g → Reachable (Junqi.flip g player_id pos).1
  | move (g : State) (player_id : String) (from_pos to_pos : Int) :
      Reachable g → Reachable (Junqi.move g player_id from_pos to_pos).1
  | surrender (g : State) (player_id : String) :
      Reachable g → Reachable (Junqi.surrender g player_id).1

end Junqi

namespace GoGame

/-- The union of the groups that the capture scan of `make_move` removes
when run over the neighbour list `ns` of the placed stone on board `b1`:
for each opponent-coloured `n` whose group has no liberties on `b1`, the
group of `n`. -/
def capture_union (board_size : Nat) (b1 : Nat → Stone) (opponent : Stone) :
    List Nat → Finset Nat
  | [] => ∅
  | n :: ns =>
    (if b1 n = opponent ∧
        count_liberties board_size b1 (find_group board_size b1 n) = 0 then
      find_group board_size b1 n
    else ∅) ∪ capture_union board_size b1 opponent ns

end GoGame

/-! ## Specification-level definitions

These follow the wording of the specification (groups as maximal connected
same-colour sets, liberties as adjacent empty cells, five-in-a-row as five
contiguous same-colour cells on an axis); they are compared against the
behaviour of the embedded source functions. -/

namespace GoGame

/-- Spec wording: `q` lies in the connected group of `p` — connectivity via
orthogonal adjacency through cells of colour `c`. -/
def SameColorReach (board_size : Nat) (board : Nat → Stone) (c : Stone)
    (p q : Nat) : Prop :=
  Relation.ReflTransGen
    (fun a b => b ∈ get_neighbors board_size a ∧ board b = c) p q

/-- Spec wording: the group of `n` has liberty count zero — no member of the
group has an adjacent empty cell. -/
def GroupZeroLib (board_size : Nat) (board : Nat → Stone) (c : Stone)
    (n : Nat) : Prop :=
  ∀ m e, SameColorReach board_size board c n m →
    e ∈ get_neighbors board_size m → board e ≠ Stone.EMPTY

/-- Spec wording: the set of stones removed by a placement at `pos` — the
members of opponent-coloured groups adjacent to `pos` whose liberty count is
zero on the given (post-placement) board. -/
def CapturedSet (board_size : Nat) (board : Nat → Stone) (opponent : Stone)
    (pos : Nat) : Set Nat :=
  { q | ∃ n ∈ get_neighbors board_size pos, board n = opponent ∧
        GroupZeroLib board_size board opponent n ∧
        SameColorReach board_size board opponent n q }

end GoGame

namespace Gomoku

/-- The four axis directions scanned by `_check_win`. -/
def axis_dirs : List (Int × Int) := [(1, 0), (0, 1), (1, 1), (1, -1)]

/-- An integer coordinate pair lies on the board. -/
def inb (board_size : Nat) (x y : Int) : Prop :=
  0 ≤ x ∧ x < (board_size : Int) ∧ 0 ≤ y ∧ y < (board_size : Int)

/-- The cell at an integer coordinate pair. -/
def cell (board_size : Nat) (board : Nat → Stone) (x y : Int) : Stone :=
  board (xy_to_pos board_size x.toNat y.toNat)

/-- Spec wording: five contiguous cells of colour `st` along `(dx, dy)`
starting at `(x, y)`. -/
def five_at (board_size : Nat) (board : Nat → Stone) (st : Stone)
    (x y dx dy : Int) : Prop :=
  ∀ i : Nat, i < 5 →
    inb board_size (x + dx * i) (y + dy * i) ∧
    cell board_size board (x + dx * i) (y + dy * i) = st

/-- Spec wording: the board contains five in a row somewhere. -/
def has_five (board_size : Nat) (board : Nat → Stone) : Prop :=
  ∃ st, st ≠ Stone.EMPTY ∧ ∃ d ∈ axis_dirs, ∃ x y : Int,
    five_at board_size board st x y d.1 d.2

/-- Spec wording: one of the four axes through `(x, y)` contains at least
five contiguous cells of colour `st`, one of them `(x, y)` itself. -/
def five_through (board_size : Nat) (board : Nat → Stone) (st : Stone)
    (x y : Int) : Prop :=
  ∃ d ∈ axis_dirs, ∃ j : Nat, j ≤ 4 ∧
    five_at board_size board st (x - d.1 * j) (y - d.2 * j) d.1 d.2

/-- Spec wording: the maximal contiguous run of colour `st` through `(x, y)`
along `(dx, dy)` extends `b` cells forward and `a` cells backward — every
cell within those extents has colour `st`, and each end is blocked by the
board edge or a different cell value. -/
def max_run (board_size : Nat) (board : Nat → Stone) (st : Stone)
    (x y dx dy : Int) (a b : Nat) : Prop :=
  (∀ i : Nat, 1 ≤ i → i ≤ b →
    inb board_size (x + dx * i) (y + dy * i) ∧
    cell board_size board (x + dx * i) (y + dy * i) = st) ∧
  (∀ i : Nat, 1 ≤ i → i ≤ a →
    inb board_size (x - dx * i) (y - dy * i) ∧
    cell board_size board (x - dx * i) (y - dy * i) = st) ∧
  (¬ inb board_size (x + dx * (b + 1)) (y + dy * (b + 1)) ∨
    cell board_size board (x + dx * (b + 1)) (y + dy * (b + 1)) ≠ st) ∧
  (¬ inb board_size (x - dx * (a + 1)) (y - dy * (a + 1)) ∨
    cell board_size board (x - dx * (a + 1)) (y - dy * (a + 1)) ≠ st)

/-- The raw data of one axis scan of `_check_win` through `(x, y)`: the
forward extent `nf` and backward extent `nb` hold colour `st`, and each
side stops at the fuel cap, the board edge or a colour break. -/
def run_data (board_size : Nat) (board : Nat → Stone) (st : Stone)
    (x y dx dy : Int) (nf nb : Nat) : Prop :=
  (∀ k : Nat, k < nf →
    inb board_size (x + dx * ((k + 1 : Nat) : Int)) (y + dy * ((k + 1 : Nat) : Int)) ∧
    cell board_size board (x + dx * ((k + 1 : Nat) : Int))
      (y + dy * ((k + 1 : Nat) : Int)) = st) ∧
  (nf = 4 ∨
    ¬ inb board_size (x + dx * ((nf + 1 : Nat) : Int))
        (y + dy * ((nf + 1 : Nat) : Int)) ∨
    cell board_size board (x + dx * ((nf + 1 : Nat) : Int))
      (y + dy * ((nf + 1 : Nat) : Int)) ≠ st) ∧
  (∀ k : Nat, k < nb →
    inb board_size (x - dx * ((k + 1 : Nat) : Int)) (y - dy * ((k + 1 : Nat) : Int)) ∧
    cell board_size board (x - dx * ((k + 1 : Nat) : Int))
      (y - dy * ((k + 1 : Nat) : Int)) = st) ∧
  (nb = 4 ∨
    ¬ inb board_size (x - dx * ((nb + 1 : Nat) : Int))
        (y - dy * ((nb + 1 : Nat) : Int)) ∨
    cell board_size board (x - dx * ((nb + 1 : Nat) : Int))
      (y - dy * ((nb + 1 : Nat) : Int)) ≠ st)

end Gomoku

namespace Junqi

/-- One application of any junqi session operation (with any arguments):
the successor states of `g`. -/
def Step (g g2 : State) : Prop :=
  (∃ pid, g2 = (Junqi.join g pid).1) ∨
  (∃ pid pos, g2 = (Junqi.flip g pid pos).1) ∨
  (∃ pid fp tp, g2 = (Junqi.move g pid fp tp).1) ∨
  (∃ pid, g2 = (Junqi.surrender g pid).1)

end Junqi

/-! ## Concrete session states used by the witnesses -/

namespace GoGame

/-- A finished 9×9 session. -/
def demo_finished : State := { init 9 "alice" with is_finished := true }

/-- A fresh 9×9 session with both players bound. -/
def demo_joined : State := (join (init 9 "alice") "bob").1

/-- `demo_joined` with a pending scoring request by black. -/
def demo_pending : State := (request_score demo_joined "alice").1

end GoGame

namespace Gomoku

/-- A fresh 15×15 session with both players bound. -/
def demo_joined : State := (Gomoku.join (init 15 "alice") "bob").1

end Gomoku

namespace Xiangqi

/-- A sparse board: red king e1 (pos 4), black king d10 (pos 84), red
chariot a8 (pos 63). -/
def demo_board : Nat → Piece := fun p =>
  if p = 4 then Piece.R_KING
  else if p = 84 then Piece.B_KING
  else if p = 63 then Piece.R_CHARIOT
  else Piece.EMPTY

/-- A running session over `demo_board`, red to move. -/
def demo_state : State where
  player_red := "alice"
  player_black := some "bob"
  board := demo_board
  current_turn := Side.RED
  move_count := 0
  last_move := none
  is_finished := false
  winner := none
  in_check := false

/-- A board with a red cannon at a1 (pos 0), a red screen at a3 (pos 18)
and a black chariot at a5 (pos 36) on the same file. -/
def demo_cannon_board : Nat → Piece := fun p =>
  if p = 0 then Piece.R_CANNON
  else if p = 18 then Piece.R_SOLDIER
  else if p = 36 then Piece.B_CHARIOT
  else Piece.EMPTY

end Xiangqi

namespace Junqi

/-- A single face-down red commander at cell 0. -/
def demo_board0 : Nat → Option Piece := fun p =>
  if p = 0 then some ⟨PieceType.COMMANDER, Side.RED, false⟩ else none

/-- Fresh session over `demo_board0` with both players bound. -/
def demo_joined : State := (Junqi.join (init "alice" demo_board0) "bob").1

/-- A session with sides fixed (player A red) and two revealed pieces: a
red bomb at cell 0 and the blue flag at cell 1. -/
def demo_bomb_state : State where
  player_a := "alice"
  player_b := some "bob"
  player_a_side := some Side.RED
  board := fun p =>
    if p = 0 then some ⟨PieceType.BOMB, Side.RED, true⟩
    else if p = 1 then some ⟨PieceType.FLAG, Side.BLUE, true⟩
    else none
  current_turn := 1
  move_count := 0
  last_action := none
  last_pos := none
  is_finished := false
  winner := none
  red_flag_captured := false
  blue_flag_captured := false

end Junqi

/-! ## Theorems -/

/-- Every rejection branch of go's `make_move` returns the state unchanged. -/
theorem go_make_move_finish_state_or_ok (g : GoGame.State) (pos : Nat)
    (board2 : Nat → GoGame.Stone) (captured : Nat) :
    (GoGame.make_move_finish g pos board2 captured).1 = g ∨
      (GoGame.make_move_finish g pos board2 captured).2.1 = true := by
  unfold GoGame.make_move_finish
  split_ifs <;> first | exact Or.inl rfl | exact Or.inr rfl

/-- Every rejection branch of go's `make_move` returns the state
unchanged. -/
theorem go_make_move_state_or_ok (g : GoGame.State) (player_id : String)
    (x y : Int) :
    (GoGame.make_move g player_id x y).1 = g ∨
      (GoGame.make_move g player_id x y).2.1 = true := by
  simp only [GoGame.make_move, GoGame.make_move_at]
  split_ifs <;>
    first
      | exact Or.inl rfl
      | exact go_make_move_finish_state_or_ok _ _ _ _

/-- C1: whenever go's `make_move` rejects (`ok = false`) — game finished,
opponent missing, wrong turn, out-of-range coordinate, occupied cell,
suicide or superko — every component of the session state is exactly as it
was before the call, including the suicide/superko branches where the board
is mutated and then rolled back. -/
theorem go_make_move_reject_preserves_state (g : GoGame.State)
    (player_id : String) (x y : Int)
    (h : (GoGame.make_move g player_id x y).2.1 = false) :
    (GoGame.make_move g player_id x y).1 = g := by
  rcases go_make_move_state_or_ok g player_id x y with h1 | h1
  · exact h1
  · rw [h1] at h
    cases h

/-- Witness for C1: a concrete rejected move (finished session) leaves the
state unchanged. -/
theorem go_make_move_reject_preserves_state_witness :
    (GoGame.make_move GoGame.demo_finished "bob" 2 3).2.1 = false ∧
    (GoGame.make_move GoGame.demo_finished "bob" 2 3).1 = GoGame.demo_finished :=
  ⟨rfl, go_make_move_reject_preserves_state _ _ _ _ rfl⟩

/-- `join` does not touch the board history. -/
theorem go_join_history (g : GoGame.State) (player_id : String) :
    (GoGame.join g player_id).1.board_history = g.board_history := by
  unfold GoGame.join
  split_ifs <;> rfl

/-- `make_move_finish` preserves a duplicate-free history: the commit
branch appends only after the superko guard ruled the hash out. -/
theorem go_make_move_finish_history_nodup (g : GoGame.State) (pos : Nat)
    (board2 : Nat → GoGame.Stone) (captured : Nat)
    (h : g.board_history.Nodup) :
    (GoGame.make_move_finish g pos board2 captured).1.board_history.Nodup := by
  unfold GoGame.make_move_finish
  split_ifs <;> simp_all [List.nodup_append]

/-- `make_move` preserves a duplicate-free history. -/
theorem go_make_move_history_nodup (g : GoGame.State) (player_id : String)
    (x y : Int) (h : g.board_history.Nodup) :
    (GoGame.make_move g player_id x y).1.board_history.Nodup := by
  simp only [GoGame.make_move, GoGame.make_move_at]
  split_ifs <;>
    first
      | exact h
      | exact go_make_move_finish_history_nodup _ _ _ _ h

/-- `pass_turn` does not touch the board history. -/
theorem go_pass_turn_history (g : GoGame.State) (player_id : String) :
    (GoGame.pass_turn g player_id).1.board_history = g.board_history := by
  simp only [GoGame.pass_turn, GoGame.finish_with_score]
  split_ifs <;> rfl

/-- `undo` either leaves the history alone or pops its last entry. -/
theorem go_undo_history_nodup (g : GoGame.State) (player_id : String)
    (h : g.board_history.Nodup) :
    (GoGame.undo g player_id).1.board_history.Nodup := by
  unfold GoGame.undo
  split_ifs <;>
    first
      | exact h
      | exact h.sublist (List.dropLast_sublist _)

/-- `request_score` does not touch the board history. -/
theorem go_request_score_history (g : GoGame.State) (player_id : String) :
    (GoGame.request_score g player_id).1.board_history = g.board_history := by
  simp only [GoGame.request_score, GoGame.finish_with_score]
  split_ifs <;> rfl

/-- `reject_score` does not touch the board history. -/
theorem go_reject_score_history (g : GoGame.State) (player_id : String) :
    (GoGame.reject_score g player_id).1.board_history = g.board_history := by
  unfold GoGame.reject_score
  split_ifs <;> rfl

/-- `surrender` does not touch the board history. -/
theorem go_surrender_history (g : GoGame.State) (player_id : String) :
    (GoGame.surrender g player_id).1.board_history = g.board_history := by
  unfold GoGame.surrender
  split_ifs <;> rfl

/-- C3: in every go session state reachable by create, join, make_move,
pass_turn, undo, request_score, reject_score and surrender, the entries of
`board_history` are pairwise distinct — a successful move never appends a
hash already present (positional superko) and undo only removes the most
recent entry. -/
theorem go_board_history_nodup (g : GoGame.State)
    (h : GoGame.Reachable g) : g.board_history.Nodup := by
  induction h with
  | create board_size player_id hsize => exact List.nodup_nil
  | join g player_id _ ih => rw [go_join_history]; exact ih
  | make_move g player_id x y _ ih => exact go_make_move_history_nodup _ _ _ _ ih
  | pass_turn g player_id _ ih => rw [go_pass_turn_history]; exact ih
  | undo g player_id _ ih => exact go_undo_history_nodup _ _ ih
  | request_score g player_id _ ih => rw [go_request_score_history]; exact ih
  | reject_score g player_id _ ih => rw [go_reject_score_history]; exact ih
  | surrender g player_id _ ih => rw [go_surrender_history]; exact ih

/-- Witness for C3: a concrete reachable session (a fresh 9×9 game) has a
duplicate-free history. -/
theorem go_board_history_nodup_witness :
    (GoGame.init 9 "alice").board_history.Nodup :=
  go_board_history_nodup _ (GoGame.Reachable.create 9 "alice" (Or.inl rfl))

/-- Inversion of a successful `make_move_finish`: the suicide and superko
guards passed and the result is the commit record. -/
theorem go_make_move_finish_ok_inv (g : GoGame.State) (pos : Nat)
    (board2 : Nat → GoGame.Stone) (captured : Nat)
    (h : (GoGame.make_move_finish g pos board2 captured).2.1 = true) :
    GoGame.count_liberties g.board_size board2
        (GoGame.find_group g.board_size board2 pos) ≠ 0 ∧
    GoGame.get_board_hash g.board_size board2 ∉ g.board_history ∧
    (GoGame.make_move_finish g pos board2 captured).1 = { g with
      board := board2
      captured_white :=
        if g.current_turn = GoGame.Stone.BLACK then g.captured_white + captured
        else g.captured_white
      captured_black :=
        if g.current_turn = GoGame.Stone.BLACK then g.captured_black
        else g.captured_black + captured
      board_history :=
        g.board_history ++ [GoGame.get_board_hash g.board_size board2]
      last_board_state := some g.board
      last_captured := captured
      last_player := some g.current_turn
      can_undo := true
      last_move := some pos
      move_count := g.move_count + 1
      consecutive_passes := 0
      ko_point := none
      score_request_by := none
      current_turn := GoGame.get_opponent g.current_turn } := by
  unfold GoGame.make_move_finish at h ⊢
  split_ifs at h ⊢ with h1 h2 <;> exact ⟨h1, h2, rfl⟩

/-- Inversion of a successful go `make_move`: all guard checks passed and
the call reduces to `make_move_at` at the decoded cell. -/
theorem go_make_move_ok_inv (g : GoGame.State) (player_id : String)
    (x y : Int) (h : (GoGame.make_move g player_id x y).2.1 = true) :
    g.is_finished = false ∧
    g.player_white ≠ none ∧
    ¬ (g.current_turn = GoGame.Stone.BLACK ∧ player_id ≠ g.player_black) ∧
    ¬ (g.current_turn = GoGame.Stone.WHITE ∧ some player_id ≠ g.player_white) ∧
    (0 ≤ x ∧ x < (g.board_size : Int) ∧ 0 ≤ y ∧ y < (g.board_size : Int)) ∧
    g.board (GoGame.xy_to_pos g.board_size x.toNat y.toNat) = GoGame.Stone.EMPTY ∧
    GoGame.make_move g player_id x y =
      GoGame.make_move_at g (GoGame.xy_to_pos g.board_size x.toNat y.toNat) := by
  simp only [GoGame.make_move] at h ⊢
  split_ifs at h ⊢ with h1 h2 h3 h4 h5 h6
  · simp_all [Bool.not_eq_true]


/-- C7: after a successful go move by player `p` (on a session whose turn
marker is an actual colour), an immediately following `undo` succeeds
exactly when requested by `p`; it restores the board, both capture tallies
and the turn to their pre-move values, removes the history hash the move
appended, and clears undo eligibility, so a second consecutive undo fails
for everyone. -/
theorem go_undo_reverts_successful_move (g : GoGame.State) (player_id : String)
    (x y : Int) (hturn : g.current_turn ≠ GoGame.Stone.EMPTY)
    (h : (GoGame.make_move g player_id x y).2.1 = true) :
    (∀ q : String,
      (GoGame.undo (GoGame.make_move g player_id x y).1 q).2.1 = true ↔
        q = player_id) ∧
    (GoGame.undo (GoGame.make_move g player_id x y).1 player_id).1.board = g.board ∧
    (GoGame.undo (GoGame.make_move g player_id x y).1 player_id).1.captured_black
      = g.captured_black ∧
    (GoGame.undo (GoGame.make_move g player_id x y).1 player_id).1.captured_white
      = g.captured_white ∧
    (GoGame.undo (GoGame.make_move g player_id x y).1 player_id).1.current_turn
      = g.current_turn ∧
    (GoGame.undo (GoGame.make_move g player_id x y).1 player_id).1.board_history
      = g.board_history ∧
    (GoGame.undo (GoGame.make_move g player_id x y).1 player_id).1.can_undo = false ∧
    (∀ q : String,
      (GoGame.undo (GoGame.undo (GoGame.make_move g player_id x y).1 player_id).1 q).2.1
        = false) := by
  obtain ⟨hfin, hpw, hturnB, hturnW, hcoords, hempty, heq⟩ :=
    go_make_move_ok_inv g player_id x y h
  rw [heq] at h ⊢
  simp only [GoGame.make_move_at] at h ⊢
  obtain ⟨hlib, hhash, hrec⟩ := go_make_move_finish_ok_inv _ _ _ _ h
  rw [hrec]
  cases hc : g.current_turn with
  | EMPTY => exact absurd hc hturn
  | BLACK =>
    have hpid : player_id = g.player_black := by
      by_contra hne
      exact hturnB ⟨hc, hne⟩
    constructor
    · intro q
      by_cases hq : q = g.player_black <;>
        simp [GoGame.undo, hfin, hc, hq, hpid]
    · simp [GoGame.undo, hfin, hc, hpid]
  | WHITE =>
    have hpid : some player_id = g.player_white := by
      by_contra hne
      exact hturnW ⟨hc, hne⟩
    have hiff : ∀ q : String, (some q = g.player_white) ↔ q = player_id := by
      intro q
      rw [← hpid, Option.some_inj]
    constructor
    · intro q
      by_cases hq : q = player_id <;>
        simp [GoGame.undo, hfin, hc, hiff, hq]
    · simp [GoGame.undo, hfin, hc, ← hpid]

/-- Witness for C7: a concrete successful move (black at A1 on a fresh 9×9
session) followed by an undo by the mover. -/
theorem go_undo_reverts_successful_move_witness :
    (GoGame.make_move GoGame.demo_joined "alice" 0 0).2.1 = true ∧
    (∀ q : String,
      (GoGame.undo (GoGame.make_move GoGame.demo_joined "alice" 0 0).1 q).2.1 = true ↔
        q = "alice") ∧
    (GoGame.undo (GoGame.make_move GoGame.demo_joined "alice" 0 0).1 "alice").1.board
      = GoGame.demo_joined.board :=
  ⟨rfl,
    (go_undo_reverts_successful_move GoGame.demo_joined "alice" 0 0
      (by decide) rfl).1,
    (go_undo_reverts_successful_move GoGame.demo_joined "alice" 0 0
      (by decide) rfl).2.1⟩

/-- C4 (code bug in `GoGame.reject_score`): on a reachable session with a
pending scoring request, a `reject_score` call by an identifier bound to
neither player slot returns `ok = true` and clears the pending request —
the source checks only that the caller is not the requester, unlike every
sibling operation.  The claim's not-a-participant rejection therefore fails
for this operation. -/
theorem go_reject_score_nonparticipant_accepted :
    GoGame.Reachable GoGame.demo_pending ∧
    GoGame.demo_pending.player_black = "alice" ∧
    GoGame.demo_pending.player_white = some "bob" ∧
    "mallory" ≠ GoGame.demo_pending.player_black ∧
    some "mallory" ≠ GoGame.demo_pending.player_white ∧
    GoGame.demo_pending.score_request_by = some "alice" ∧
    (GoGame.reject_score GoGame.demo_pending "mallory").2.1 = true ∧
    (GoGame.reject_score GoGame.demo_pending "mallory").1.score_request_by = none :=
  ⟨GoGame.Reachable.request_score _ "alice"
      (GoGame.Reachable.join _ "bob"
        (GoGame.Reachable.create 9 "alice" (Or.inl rfl))),
    rfl, rfl, by decide, by decide, rfl, rfl, rfl⟩


namespace GoGame

/-- Membership in a conditional singleton. -/
theorem mem_ite_singleton {c : Prop} [Decidable c] {q a : Nat} :
    (q ∈ if c then [a] else ([] : List Nat)) ↔ c ∧ q = a := by
  split_ifs with h <;> simp [h]

/-- Membership in the neighbour list, unfolded. -/
theorem mem_get_neighbors_iff (s p q : Nat) :
    q ∈ get_neighbors s p ↔
      ((0 < p % s ∧ q = xy_to_pos s (p % s - 1) (p / s)) ∨
       (p % s < s - 1 ∧ q = xy_to_pos s (p % s + 1) (p / s)) ∨
       (0 < p / s ∧ q = xy_to_pos s (p % s) (p / s - 1)) ∨
       (p / s < s - 1 ∧ q = xy_to_pos s (p % s) (p / s + 1))) := by
  simp only [get_neighbors, List.mem_append, mem_ite_singleton, or_assoc]

/-- Decoding the column of `xy_to_pos`. -/
theorem xy_to_pos_mod (s x y : Nat) (hx : x < s) : xy_to_pos s x y % s = x := by
  rw [xy_to_pos, Nat.add_comm, Nat.add_mul_mod_self_right, Nat.mod_eq_of_lt hx]

/-- Decoding the row of `xy_to_pos`. -/
theorem xy_to_pos_div (s x y : Nat) (hx : x < s) : xy_to_pos s x y / s = y := by
  have hs : 0 < s := Nat.lt_of_le_of_lt (Nat.zero_le x) hx
  rw [xy_to_pos, Nat.add_comm, Nat.add_mul_div_right _ _ hs,
    Nat.div_eq_of_lt hx, Nat.zero_add]

/-- An encoded in-range coordinate pair is an in-range cell index. -/
theorem xy_to_pos_lt (s x y : Nat) (hx : x < s) (hy : y < s) :
    xy_to_pos s x y < s * s := by
  have h1 : xy_to_pos s x y < (y + 1) * s := by
    rw [xy_to_pos, Nat.add_mul, Nat.one_mul]
    omega
  exact Nat.lt_of_lt_of_le h1 (Nat.mul_le_mul_right s hy)

/-- Neighbours of an in-range cell are in range. -/
theorem get_neighbors_lt (s p q : Nat) (hp : p < s * s)
    (hq : q ∈ get_neighbors s p) : q < s * s := by
  have hs : 0 < s := by
    rcases Nat.eq_zero_or_pos s with h | h
    · subst h; omega
    · exact h
  have hx : p % s < s := Nat.mod_lt _ hs
  have hy : p / s < s := Nat.div_lt_iff_lt_mul hs |>.mpr hp
  rw [mem_get_neighbors_iff] at hq
  rcases hq with ⟨h1, rfl⟩ | ⟨h1, rfl⟩ | ⟨h1, rfl⟩ | ⟨h1, rfl⟩ <;>
    apply xy_to_pos_lt <;> omega

/-- Neighbourhood is symmetric for in-range cells. -/
theorem get_neighbors_symm (s p q : Nat) (hp : p < s * s)
    (hq : q ∈ get_neighbors s p) : p ∈ get_neighbors s q := by
  have hs : 0 < s := by
    rcases Nat.eq_zero_or_pos s with h | h
    · subst h; omega
    · exact h
  have hx : p % s < s := Nat.mod_lt _ hs
  have hy : p / s < s := Nat.div_lt_iff_lt_mul hs |>.mpr hp
  have hpe : p = xy_to_pos s (p % s) (p / s) := by
    rw [xy_to_pos, Nat.mul_comm, Nat.div_add_mod]
  rw [mem_get_neighbors_iff] at hq
  rw [mem_get_neighbors_iff]
  rcases hq with ⟨h1, rfl⟩ | ⟨h1, rfl⟩ | ⟨h1, rfl⟩ | ⟨h1, rfl⟩
  · rw [xy_to_pos_mod s (p % s - 1) (p / s) (by omega),
      xy_to_pos_div s (p % s - 1) (p / s) (by omega)]
    right; left
    exact ⟨by omega, by rw [show p % s - 1 + 1 = p % s from by omega]; exact hpe⟩
  · rw [xy_to_pos_mod s (p % s + 1) (p / s) (by omega),
      xy_to_pos_div s (p % s + 1) (p / s) (by omega)]
    left
    exact ⟨by omega, by rw [show p % s + 1 - 1 = p % s from by omega]; exact hpe⟩
  · rw [xy_to_pos_mod s (p % s) (p / s - 1) hx,
      xy_to_pos_div s (p % s) (p / s - 1) hx]
    right; right; right
    exact ⟨by omega, by rw [show p / s - 1 + 1 = p / s from by omega]; exact hpe⟩
  · rw [xy_to_pos_mod s (p % s) (p / s + 1) hx,
      xy_to_pos_div s (p % s) (p / s + 1) hx]
    right; right; left
    exact ⟨Nat.succ_pos _, by rw [Nat.add_sub_cancel]; exact hpe⟩

/-- The neighbour list has at most four entries. -/
theorem get_neighbors_length_le (s p : Nat) :
    (get_neighbors s p).length ≤ 4 := by
  simp only [get_neighbors]
  split_ifs <;> simp

end GoGame


namespace GoGame

/-- Cells of a same-colour component have the component's colour. -/
theorem reach_colored {s : Nat} {b : Nat → Stone} {c : Stone} {p q : Nat}
    (h : SameColorReach s b c p q) (hp : b p = c) : b q = c := by
  induction h with
  | refl => exact hp
  | tail _ hstep _ => exact hstep.2

/-- Components of in-range cells stay in range. -/
theorem reach_lt {s : Nat} {b : Nat → Stone} {c : Stone} {p q : Nat}
    (h : SameColorReach s b c p q) (hp : p < s * s) : q < s * s := by
  induction h with
  | refl => exact hp
  | tail _ hstep ih => exact get_neighbors_lt s _ _ ih hstep.1

/-- Same-colour connectivity is symmetric on coloured in-range cells. -/
theorem reach_symm {s : Nat} {b : Nat → Stone} {c : Stone} {p q : Nat}
    (h : SameColorReach s b c p q) (hp : p < s * s) (hpc : b p = c) :
    SameColorReach s b c q p := by
  induction h with
  | refl => exact Relation.ReflTransGen.refl
  | tail hr hstep ih =>
    refine Relation.ReflTransGen.head ?_ ih
    have hm : _ < s * s := reach_lt hr hp
    exact ⟨get_neighbors_symm s _ _ hm hstep.1, reach_colored hr hpc⟩

/-- Two components sharing a cell are pointwise equal. -/
theorem reach_common {s : Nat} {b : Nat → Stone} {c : Stone} {m n q0 : Nat}
    (hm : m < s * s) (hmc : b m = c)
    (h1 : SameColorReach s b c m q0) (h2 : SameColorReach s b c n q0) :
    ∀ q, SameColorReach s b c m q → SameColorReach s b c n q := by
  intro q hq
  exact (h2.trans (reach_symm h1 hm hmc)).trans hq

/-- `count_liberties` is zero iff no group member has an empty neighbour. -/
theorem count_liberties_eq_zero_iff (s : Nat) (b : Nat → Stone)
    (G : Finset Nat) :
    count_liberties s b G = 0 ↔
      ∀ m ∈ G, ∀ e ∈ get_neighbors s m, b e ≠ Stone.EMPTY := by
  rw [count_liberties, Finset.card_eq_zero, Finset.eq_empty_iff_forall_not_mem]
  constructor
  · intro h m hm e he hbe
    exact h e (Finset.mem_biUnion.mpr ⟨m, hm,
      List.mem_toFinset.mpr (List.mem_filter.mpr ⟨he, by simp [hbe]⟩)⟩)
  · intro h e he
    obtain ⟨m, hm, hee⟩ := Finset.mem_biUnion.mp he
    obtain ⟨he', hbe⟩ := List.mem_filter.mp (List.mem_toFinset.mp hee)
    exact h m hm e he' (by simpa using hbe)

end GoGame


namespace GoGame

/-- Full specification of the `_find_group` worklist loop, by induction on
the fuel: with enough fuel the loop returns a superset of `group` whose
elements are either old or connected to a coloured stack entry, coloured
and in range throughout, closed under same-colour adjacency, and containing
every coloured stack entry. -/
theorem find_group_loop_spec (s : Nat) (b : Nat → Stone) (c : Stone) :
    ∀ (fuel : Nat) (stack : List Nat) (group : Finset Nat),
    stack.length + 5 * ((Finset.range (s * s)) \ group).card ≤ fuel →
    (∀ q ∈ stack, q < s * s) →
    (∀ q ∈ group, q < s * s ∧ b q = c) →
    (∀ gq ∈ group, ∀ nb ∈ get_neighbors s gq, b nb = c →
      nb ∈ group ∨ nb ∈ stack) →
    (group ⊆ find_group_loop s b c fuel stack group) ∧
    (∀ q ∈ find_group_loop s b c fuel stack group,
      q ∈ group ∨ ∃ src ∈ stack, b src = c ∧ SameColorReach s b c src q) ∧
    (∀ q ∈ find_group_loop s b c fuel stack group, q < s * s ∧ b q = c) ∧
    (∀ gq ∈ find_group_loop s b c fuel stack group,
      ∀ nb ∈ get_neighbors s gq, b nb = c →
        nb ∈ find_group_loop s b c fuel stack group) ∧
    (∀ src ∈ stack, b src = c → src ∈ find_group_loop s b c fuel stack group) := by
  intro fuel
  induction fuel with
  | zero =>
    intro stack group hfuel hstack hgroup hclosed
    match stack with
    | [] =>
      refine ⟨fun q hq => hq, fun q hq => Or.inl hq, hgroup, ?_, by simp⟩
      intro gq hgq nb hnb hcnb
      rcases hclosed gq hgq nb hnb hcnb with h | h
      · exact h
      · cases h
    | t :: rest => simp at hfuel
  | succ fuel ih =>
    intro stack group hfuel hstack hgroup hclosed
    match stack with
    | [] =>
      refine ⟨fun q hq => hq, fun q hq => Or.inl hq, hgroup, ?_, by simp⟩
      intro gq hgq nb hnb hcnb
      rcases hclosed gq hgq nb hnb hcnb with h | h
      · exact h
      · cases h
    | current :: rest =>
      by_cases hcur : current ∈ group
      · -- already visited: pop and continue
        rw [show find_group_loop s b c (fuel + 1) (current :: rest) group =
          find_group_loop s b c fuel rest group from by
            rw [find_group_loop]; simp [hcur]]
        have hclosed' : ∀ gq ∈ group, ∀ nb ∈ get_neighbors s gq, b nb = c →
            nb ∈ group ∨ nb ∈ rest := by
          intro gq hgq nb hnb hcnb
          rcases hclosed gq hgq nb hnb hcnb with h | h
          · exact Or.inl h
          · rcases List.mem_cons.mp h with h | h
            · subst h; exact Or.inl hcur
            · exact Or.inr h
        obtain ⟨c1, c2, c3, c4, c5⟩ := ih rest group
          (by simp at hfuel ⊢; omega)
          (fun q hq => hstack q (List.mem_cons_of_mem _ hq)) hgroup hclosed'
        refine ⟨c1, ?_, c3, c4, ?_⟩
        · intro q hq
          rcases c2 q hq with h | ⟨src, hsrc, hsc, hr⟩
          · exact Or.inl h
          · exact Or.inr ⟨src, List.mem_cons_of_mem _ hsrc, hsc, hr⟩
        · intro src hsrc hsc
          rcases List.mem_cons.mp hsrc with h | h
          · subst h; exact c1 hcur
          · exact c5 src h hsc
      · by_cases hcc : b current = c
        · -- visit: insert and push unvisited neighbours
          rw [show find_group_loop s b c (fuel + 1) (current :: rest) group =
            find_group_loop s b c fuel
              (((get_neighbors s current).filter
                  (fun n => decide (n ∉ group))).reverse ++ rest)
              (insert current group) from by
              rw [find_group_loop]; simp [hcur, hcc]]
          have hcr : current < s * s := hstack current (List.mem_cons_self _ _)
          have hcard : current ∈ Finset.range (s * s) \ group :=
            Finset.mem_sdiff.mpr ⟨Finset.mem_range.mpr hcr, hcur⟩
          have hcard1 : 1 ≤ ((Finset.range (s * s)) \ group).card :=
            Finset.card_pos.mpr ⟨current, hcard⟩
          have hcardeq : ((Finset.range (s * s)) \ insert current group).card =
              ((Finset.range (s * s)) \ group).card - 1 := by
            rw [show Finset.range (s * s) \ insert current group =
              ((Finset.range (s * s)) \ group).erase current from by
                ext a
                simp [Finset.mem_sdiff, Finset.mem_erase]
                tauto]
            exact Finset.card_erase_of_mem hcard
          have hlen : (((get_neighbors s current).filter
              (fun n => decide (n ∉ group))).reverse ++ rest).length ≤
              4 + rest.length := by
            rw [List.length_append, List.length_reverse]
            have := List.length_filter_le
              (fun n => decide (n ∉ group)) (get_neighbors s current)
            have := get_neighbors_length_le s current
            omega
          obtain ⟨c1, c2, c3, c4, c5⟩ := ih
            (((get_neighbors s current).filter
                (fun n => decide (n ∉ group))).reverse ++ rest)
            (insert current group)
            (by
              simp only [List.length_cons] at hfuel
              rw [hcardeq]
              omega)
            (by
              intro q hq
              rcases List.mem_append.mp hq with h | h
              · have := List.mem_reverse.mp h
                exact get_neighbors_lt s current q hcr (List.mem_filter.mp this).1
              · exact hstack q (List.mem_cons_of_mem _ h))
            (by
              intro q hq
              rcases Finset.mem_insert.mp hq with h | h
              · subst h; exact ⟨hcr, hcc⟩
              · exact hgroup q h)
            (by
              intro gq hgq nb hnb hcnb
              rcases Finset.mem_insert.mp hgq with h | h
              · subst h
                by_cases hnbg : nb ∈ group
                · exact Or.inl (Finset.mem_insert_of_mem hnbg)
                · refine Or.inr (List.mem_append.mpr (Or.inl ?_))
                  exact List.mem_reverse.mpr
                    (List.mem_filter.mpr ⟨hnb, by simp [hnbg]⟩)
              · rcases hclosed gq h nb hnb hcnb with h2 | h2
                · exact Or.inl (Finset.mem_insert_of_mem h2)
                · rcases List.mem_cons.mp h2 with h3 | h3
                  · subst h3; exact Or.inl (Finset.mem_insert_self _ _)
                  · exact Or.inr (List.mem_append.mpr (Or.inr h3)))
          refine ⟨fun q hq => c1 (Finset.mem_insert_of_mem hq), ?_, c3, c4, ?_⟩
          · intro q hq
            rcases c2 q hq with h | ⟨src, hsrc, hsc, hr⟩
            · rcases Finset.mem_insert.mp h with h2 | h2
              · subst h2
                exact Or.inr ⟨q, List.mem_cons_self _ _, hcc,
                  Relation.ReflTransGen.refl⟩
              · exact Or.inl h2
            · rcases List.mem_append.mp hsrc with h2 | h2
              · have hmem := List.mem_filter.mp (List.mem_reverse.mp h2)
                refine Or.inr ⟨current, List.mem_cons_self _ _, hcc, ?_⟩
                exact Relation.ReflTransGen.head ⟨hmem.1, hsc⟩ hr
              · exact Or.inr ⟨src, List.mem_cons_of_mem _ h2, hsc, hr⟩
          · intro src hsrc hsc
            rcases List.mem_cons.mp hsrc with h | h
            · subst h; exact c1 (Finset.mem_insert_self _ _)
            · exact c5 src (List.mem_append.mpr (Or.inr h)) hsc
        · -- wrong colour: drop
          rw [show find_group_loop s b c (fuel + 1) (current :: rest) group =
            find_group_loop s b c fuel rest group from by
              rw [find_group_loop]; simp [hcur, hcc]]
          have hclosed' : ∀ gq ∈ group, ∀ nb ∈ get_neighbors s gq, b nb = c →
              nb ∈ group ∨ nb ∈ rest := by
            intro gq hgq nb hnb hcnb
            rcases hclosed gq hgq nb hnb hcnb with h | h
            · exact Or.inl h
            · rcases List.mem_cons.mp h with h | h
              · subst h; exact absurd hcnb hcc
              · exact Or.inr h
          obtain ⟨c1, c2, c3, c4, c5⟩ := ih rest group
            (by simp at hfuel ⊢; omega)
            (fun q hq => hstack q (List.mem_cons_of_mem _ hq)) hgroup hclosed'
          refine ⟨c1, ?_, c3, c4, ?_⟩
          · intro q hq
            rcases c2 q hq with h | ⟨src, hsrc, hsc, hr⟩
            · exact Or.inl h
            · exact Or.inr ⟨src, List.mem_cons_of_mem _ hsrc, hsc, hr⟩
          · intro src hsrc hsc
            rcases List.mem_cons.mp hsrc with h | h
            · subst h; exact absurd hsc hcc
            · exact c5 src h hsc

end GoGame

namespace GoGame

/-- Correctness of `_find_group`: for an in-range, non-empty cell it
computes exactly the same-colour connected component. -/
theorem find_group_spec (s : Nat) (b : Nat → Stone) (pos : Nat)
    (hpos : pos < s * s) (hne : b pos ≠ Stone.EMPTY) :
    ∀ q, q ∈ find_group s b pos ↔ SameColorReach s b (b pos) pos q := by
  intro q
  rw [find_group, if_neg hne]
  obtain ⟨c1, c2, c3, c4, c5⟩ := find_group_loop_spec s b (b pos)
    (5 * (s * s) + 1) [pos] ∅
    (by simp only [List.length_singleton, Finset.sdiff_empty,
          Finset.card_range]
        omega)
    (by simpa using hpos)
    (by simp)
    (by simp)
  constructor
  · intro hq
    rcases c2 q hq with h | ⟨src, hsrc, hsc, hr⟩
    · simp at h
    · rw [List.mem_singleton] at hsrc
      subst hsrc
      exact hr
  · intro hr
    have hpos_mem : pos ∈ find_group_loop s b (b pos)
        (5 * (s * s) + 1) [pos] ∅ :=
      c5 pos (List.mem_singleton.mpr rfl) rfl
    clear c1 c2 c3 c5
    induction hr with
    | refl => exact hpos_mem
    | tail hr hstep ih => exact c4 _ ih _ hstep.1 hstep.2

/-- A cell of a cleared board that has colour `c` kept its colour and was
not cleared. -/
theorem capture_stones_eq_color {b : Nat → Stone} {S : Finset Nat}
    {c : Stone} (hc : c ≠ Stone.EMPTY) {e : Nat}
    (h : capture_stones b S e = c) : e ∉ S ∧ b e = c := by
  by_cases hS : e ∈ S
  · rw [capture_stones, if_pos hS] at h
    exact absurd h.symm hc
  · rw [capture_stones, if_neg hS] at h
    exact ⟨hS, h⟩

/-- Clearing a set disjoint from the component of `n` does not change that
component. -/
theorem reach_capture_stones_iff {s : Nat} {b : Nat → Stone} {c : Stone}
    {S : Finset Nat} {n : Nat} (hc : c ≠ Stone.EMPTY)
    (hdisj : ∀ x, SameColorReach s b c n x → x ∉ S) :
    ∀ q, SameColorReach s (capture_stones b S) c n q ↔
      SameColorReach s b c n q := by
  intro q
  constructor
  · intro h
    induction h with
    | refl => exact Relation.ReflTransGen.refl
    | tail hr hstep ih =>
      exact ih.tail ⟨hstep.1, (capture_stones_eq_color hc hstep.2).2⟩
  · intro h
    induction h with
    | refl => exact Relation.ReflTransGen.refl
    | tail hr hstep ih =>
      have he : _ ∉ S := hdisj _ (hr.tail hstep)
      refine ih.tail ⟨hstep.1, ?_⟩
      rw [capture_stones, if_neg he]
      exact hstep.2

end GoGame


namespace GoGame

/-- Clearing a group of the cleared board merges the cleared sets. -/
theorem capture_stones_capture_stones (b : Nat → Stone) (S G : Finset Nat) :
    capture_stones (capture_stones b S) G = capture_stones b (S ∪ G) := by
  funext q
  by_cases hG : q ∈ G <;> by_cases hS : q ∈ S <;>
    simp [capture_stones, hG, hS]

/-- Specification of the capture scan of `make_move`: starting from the
placement board `b1` with an already-cleared set `S` that is a union of
components, scanning the in-range cells `ns` clears exactly the additional
groups `capture_union … ns` and counts their stones. -/
theorem capture_scan_spec (s : Nat) (b1 : Nat → Stone) (opp : Stone)
    (hopp : opp ≠ Stone.EMPTY) :
    ∀ (ns : List Nat) (S : Finset Nat) (cap : Nat),
    (∀ n ∈ ns, n < s * s) →
    (∀ q ∈ S, b1 q = opp) →
    (∀ q ∈ S, q < s * s) →
    (∀ q ∈ S, ∀ r, SameColorReach s b1 opp q r → r ∈ S) →
    capture_scan s opp ns (capture_stones b1 S) cap =
      (capture_stones b1 (S ∪ capture_union s b1 opp ns),
       cap + ((capture_union s b1 opp ns) \ S).card) := by
  intro ns
  induction ns with
  | nil =>
    intro S cap hns hS1 hS2 hS3
    simp [capture_scan, capture_union]
  | cons n ns ih =>
    intro S cap hns hS1 hS2 hS3
    have hn : n < s * s := hns n (List.mem_cons_self _ _)
    by_cases hnS : n ∈ S
    · -- the neighbour was already cleared: its cell is empty, skip
      have hbn : capture_stones b1 S n = Stone.EMPTY := by
        rw [capture_stones, if_pos hnS]
      have hno : ¬ (capture_stones b1 S n = opp) := by
        rw [hbn]
        exact fun h => hopp h.symm
      have hfn : (if b1 n = opp ∧
          count_liberties s b1 (find_group s b1 n) = 0 then
            find_group s b1 n else ∅) ⊆ S := by
        split_ifs with hcond
        · intro q hq
          have hreach := ((find_group_spec s b1 n hn
            (by rw [hcond.1]; exact hopp)) q).mp hq
          rw [hcond.1] at hreach
          exact hS3 n hnS q hreach
        · exact Finset.empty_subset _
      rw [show capture_scan s opp (n :: ns) (capture_stones b1 S) cap =
        capture_scan s opp ns (capture_stones b1 S) cap from by
          rw [capture_scan]; simp [hno]]
      rw [ih S cap (fun m hm => hns m (List.mem_cons_of_mem _ hm)) hS1 hS2 hS3]
      rw [capture_union]
      congr 1
      · rw [← Finset.union_assoc, Finset.union_eq_left.mpr hfn]
      · congr 2
        rw [Finset.union_sdiff_distrib,
          Finset.sdiff_eq_empty_iff_subset.mpr hfn, Finset.empty_union]
    · have hbn : capture_stones b1 S n = b1 n := by
        rw [capture_stones, if_neg hnS]
      by_cases hcn : b1 n = opp
      · -- live opponent neighbour: its group is untouched by the clearing
        have hdisj : ∀ x, SameColorReach s b1 opp n x → x ∉ S := by
          intro x hx hxS
          exact hnS (hS3 x hxS n (reach_symm hx hn hcn))
        have hreach_iff := reach_capture_stones_iff (S := S) (n := n) hopp hdisj
        have hgroup_eq : find_group s (capture_stones b1 S) n =
            find_group s b1 n := by
          ext q
          rw [find_group_spec s (capture_stones b1 S) n hn
                (by rw [hbn, hcn]; exact hopp),
              find_group_spec s b1 n hn (by rw [hcn]; exact hopp),
              hbn, hcn, hreach_iff]
        have hG1 : ∀ q ∈ find_group s b1 n, SameColorReach s b1 opp n q := by
          intro q hq
          have h2 := ((find_group_spec s b1 n hn
            (by rw [hcn]; exact hopp)) q).mp hq
          rwa [hcn] at h2
        have hlib_iff : count_liberties s (capture_stones b1 S)
            (find_group s b1 n) = 0 ↔
            count_liberties s b1 (find_group s b1 n) = 0 := by
          rw [count_liberties_eq_zero_iff, count_liberties_eq_zero_iff]
          constructor <;> intro h m hm e he
          · have heS : e ∉ S := by
              intro heS
              exact hdisj e ((hG1 m hm).tail ⟨he, hS1 e heS⟩) heS
            have h2 := h m hm e he
            rwa [capture_stones, if_neg heS] at h2
          · have heS : e ∉ S := by
              intro heS
              exact hdisj e ((hG1 m hm).tail ⟨he, hS1 e heS⟩) heS
            rw [capture_stones, if_neg heS]
            exact h m hm e he
        by_cases hzero : count_liberties s b1 (find_group s b1 n) = 0
        · -- capture this group and continue
          have hstep : capture_scan s opp (n :: ns) (capture_stones b1 S) cap =
              capture_scan s opp ns
                (capture_stones b1 (S ∪ find_group s b1 n))
                (cap + (find_group s b1 n).card) := by
            rw [← capture_stones_capture_stones]
            simp [capture_scan, hbn, hcn, hgroup_eq, hlib_iff, hzero]
          rw [hstep]
          have hGdisj : ∀ q ∈ find_group s b1 n, q ∉ S := by
            intro q hq
            exact hdisj q (hG1 q hq)
          rw [ih (S ∪ find_group s b1 n) (cap + (find_group s b1 n).card)
            (fun m hm => hns m (List.mem_cons_of_mem _ hm))
            (by
              intro q hq
              rcases Finset.mem_union.mp hq with h | h
              · exact hS1 q h
              · exact reach_colored (hG1 q h) hcn)
            (by
              intro q hq
              rcases Finset.mem_union.mp hq with h | h
              · exact hS2 q h
              · exact reach_lt (hG1 q h) hn)
            (by
              intro q hq r hr
              rcases Finset.mem_union.mp hq with h | h
              · exact Finset.mem_union_left _ (hS3 q h r hr)
              · refine Finset.mem_union_right _ ?_
                rw [find_group_spec s b1 n hn (by rw [hcn]; exact hopp), hcn]
                exact (hG1 q h).trans hr)]
          rw [capture_union]
          rw [if_pos ⟨hcn, hzero⟩]
          refine congrArg₂ Prod.mk ?_ ?_
          · rw [Finset.union_assoc]
          · have e1 : (find_group s b1 n ∪ capture_union s b1 opp ns) \ S =
                find_group s b1 n ∪
                  (capture_union s b1 opp ns \ (S ∪ find_group s b1 n)) := by
              ext q
              simp only [Finset.mem_sdiff, Finset.mem_union]
              constructor
              · rintro ⟨h | h, hqS⟩
                · exact Or.inl h
                · by_cases hG : q ∈ find_group s b1 n
                  · exact Or.inl hG
                  · exact Or.inr ⟨h, fun h2 => by
                      rcases h2 with h2 | h2
                      exacts [hqS h2, hG h2]⟩
              · rintro (h | ⟨h, h2⟩)
                · exact ⟨Or.inl h, hGdisj q h⟩
                · exact ⟨Or.inr h, fun hS => h2 (Or.inl hS)⟩
            rw [e1, Finset.card_union_of_disjoint (by
              rw [Finset.disjoint_right]
              intro q hq
              simp only [Finset.mem_sdiff, Finset.mem_union] at hq
              exact fun hG => hq.2 (Or.inr hG))]
            omega
        · -- live group: skip
          have hstep : capture_scan s opp (n :: ns) (capture_stones b1 S) cap =
              capture_scan s opp ns (capture_stones b1 S) cap := by
            simp [capture_scan, hbn, hcn, hgroup_eq, hlib_iff, hzero]
          rw [hstep,
            ih S cap (fun m hm => hns m (List.mem_cons_of_mem _ hm)) hS1 hS2 hS3,
            capture_union, if_neg (fun h => hzero h.2)]
          simp
      · -- not an opponent cell: skip
        have hstep : capture_scan s opp (n :: ns) (capture_stones b1 S) cap =
            capture_scan s opp ns (capture_stones b1 S) cap := by
          rw [capture_scan]
          rw [if_neg (by rw [hbn]; exact hcn)]
        rw [hstep,
          ih S cap (fun m hm => hns m (List.mem_cons_of_mem _ hm)) hS1 hS2 hS3,
          capture_union, if_neg (fun h => hcn h.1)]
        simp

end GoGame


namespace GoGame

/-- Clearing nothing is the identity. -/
theorem capture_stones_empty (b : Nat → Stone) :
    capture_stones b (∅ : Finset Nat) = b := by
  funext q
  simp [capture_stones]

/-- The opponent colour is never the mover's colour and never empty. -/
theorem get_opponent_ne_empty (st : Stone) : get_opponent st ≠ Stone.EMPTY := by
  rw [get_opponent]
  split_ifs <;> simp

theorem get_opponent_ne_self (st : Stone) : get_opponent st ≠ st := by
  rw [get_opponent]
  split_ifs with h <;> intro h2
  · rw [h] at h2; cases h2
  · exact h h2.symm

/-- Membership in the scanned-capture union. -/
theorem mem_capture_union (s : Nat) (b1 : Nat → Stone) (opp : Stone) :
    ∀ (ns : List Nat) (q : Nat),
    q ∈ capture_union s b1 opp ns ↔
      ∃ n ∈ ns, b1 n = opp ∧
        count_liberties s b1 (find_group s b1 n) = 0 ∧
        q ∈ find_group s b1 n := by
  intro ns
  induction ns with
  | nil => simp [capture_union]
  | cons n ns ih =>
    intro q
    rw [capture_union]
    simp only [Finset.mem_union, ih, List.mem_cons]
    constructor
    · rintro (h | ⟨m, hm, h⟩)
      · split_ifs at h with hc
        · exact ⟨n, Or.inl rfl, hc.1, hc.2, h⟩
        · simp at h
      · exact ⟨m, Or.inr hm, h⟩
    · rintro ⟨m, hm | hm, h⟩
      · subst hm
        exact Or.inl (by rw [if_pos ⟨h.1, h.2.1⟩]; exact h.2.2)
      · exact Or.inr ⟨m, hm, h⟩

/-- Zero computed liberties coincide with the spec-level zero-liberty
predicate on the group of `n`. -/
theorem count_liberties_zero_iff_spec (s : Nat) (b1 : Nat → Stone)
    (opp : Stone) (hopp : opp ≠ Stone.EMPTY) (n : Nat) (hn : n < s * s)
    (hcn : b1 n = opp) :
    count_liberties s b1 (find_group s b1 n) = 0 ↔
      GroupZeroLib s b1 opp n := by
  rw [count_liberties_eq_zero_iff]
  constructor
  · intro h m e hr he
    have hm : m ∈ find_group s b1 n := by
      rw [find_group_spec s b1 n hn (by rw [hcn]; exact hopp), hcn]
      exact hr
    exact h m hm e he
  · intro h m hm e he
    have hr : SameColorReach s b1 opp n m := by
      rw [find_group_spec s b1 n hn (by rw [hcn]; exact hopp), hcn] at hm
      exact hm
    exact h m e hr he

/-- The scanned-capture union is exactly the spec-level captured set. -/
theorem capture_union_eq_captured_set (s : Nat) (b1 : Nat → Stone)
    (opp : Stone) (hopp : opp ≠ Stone.EMPTY) (pos : Nat) (hpos : pos < s * s) :
    (↑(capture_union s b1 opp (get_neighbors s pos)) : Set Nat) =
      CapturedSet s b1 opp pos := by
  ext q
  simp only [Finset.coe_sort_coe, Finset.mem_coe,
    mem_capture_union, CapturedSet, Set.mem_setOf_eq]
  constructor
  · rintro ⟨n, hnn, hcn, hz, hq⟩
    have hn : n < s * s := get_neighbors_lt s pos n hpos hnn
    refine ⟨n, hnn, hcn, ?_, ?_⟩
    · exact (count_liberties_zero_iff_spec s b1 opp hopp n hn hcn).mp hz
    · rw [find_group_spec s b1 n hn (by rw [hcn]; exact hopp), hcn] at hq
      exact hq
  · rintro ⟨n, hnn, hcn, hz, hq⟩
    have hn : n < s * s := get_neighbors_lt s pos n hpos hnn
    refine ⟨n, hnn, hcn, ?_, ?_⟩
    · exact (count_liberties_zero_iff_spec s b1 opp hopp n hn hcn).mpr hz
    · rw [find_group_spec s b1 n hn (by rw [hcn]; exact hopp), hcn]
      exact hq

end GoGame

/-- C2: when go's `make_move` succeeds, the cells removed from the
post-placement board are exactly the members of opponent-coloured groups
adjacent to the placed stone whose liberty count is zero after the
placement (`GoGame.CapturedSet`, flood fill over same-colour adjacency,
liberties as distinct adjacent empty cells); the mover's capture tally
grows by exactly the number of removed stones; and the mover's own group
still has a liberty on the post-capture board, i.e. the suicide test is
evaluated only after the captures. -/
theorem go_make_move_capture_correct (g : GoGame.State) (player_id : String)
    (x y : Int)
    (h : (GoGame.make_move g player_id x y).2.1 = true)
    (pos : Nat) (hposdef : pos = GoGame.xy_to_pos g.board_size x.toNat y.toNat)
    (board1 : Nat → GoGame.Stone)
    (hb1 : board1 = fun p => if p = pos then g.current_turn else g.board p)
    (captured : Set Nat)
    (hcap : captured = GoGame.CapturedSet g.board_size board1
      (GoGame.get_opponent g.current_turn) pos) :
    (∀ q ∈ captured,
      (GoGame.make_move g player_id x y).1.board q = GoGame.Stone.EMPTY) ∧
    (∀ q, q ∉ captured →
      (GoGame.make_move g player_id x y).1.board q = board1 q) ∧
    (g.current_turn = GoGame.Stone.BLACK →
      (GoGame.make_move g player_id x y).1.captured_white =
        g.captured_white + captured.ncard ∧
      (GoGame.make_move g player_id x y).1.captured_black = g.captured_black) ∧
    (g.current_turn = GoGame.Stone.WHITE →
      (GoGame.make_move g player_id x y).1.captured_black =
        g.captured_black + captured.ncard ∧
      (GoGame.make_move g player_id x y).1.captured_white = g.captured_white) ∧
    (∃ m e, GoGame.SameColorReach g.board_size
        ((GoGame.make_move g player_id x y).1.board) g.current_turn pos m ∧
      e ∈ GoGame.get_neighbors g.board_size m ∧
      (GoGame.make_move g player_id x y).1.board e = GoGame.Stone.EMPTY) := by
  obtain ⟨hfin, hpw, hB, hW, hcoords, hempty, heq⟩ :=
    go_make_move_ok_inv g player_id x y h
  rw [heq] at h ⊢
  simp only [GoGame.make_move_at] at h ⊢
  obtain ⟨hlib, hhash, hrec⟩ := go_make_move_finish_ok_inv _ _ _ _ h
  rw [← hposdef, ← hb1] at hlib hrec ⊢
  have hpos : pos < g.board_size * g.board_size := by
    have hx : x.toNat < g.board_size := by omega
    have hy : y.toNat < g.board_size := by omega
    rw [hposdef]
    exact GoGame.xy_to_pos_lt _ _ _ hx hy
  have hopp : GoGame.get_opponent g.current_turn ≠ GoGame.Stone.EMPTY :=
    GoGame.get_opponent_ne_empty _
  have hscan : GoGame.capture_scan g.board_size
      (GoGame.get_opponent g.current_turn)
      (GoGame.get_neighbors g.board_size pos) board1 0 =
      (GoGame.capture_stones board1
        (GoGame.capture_union g.board_size board1
          (GoGame.get_opponent g.current_turn)
          (GoGame.get_neighbors g.board_size pos)),
       (GoGame.capture_union g.board_size board1
          (GoGame.get_opponent g.current_turn)
          (GoGame.get_neighbors g.board_size pos)).card) := by
    have h0 := GoGame.capture_scan_spec g.board_size board1
      (GoGame.get_opponent g.current_turn) hopp
      (GoGame.get_neighbors g.board_size pos) ∅ 0
      (fun n hn => GoGame.get_neighbors_lt _ pos n hpos hn)
      (by simp) (by simp) (by simp)
    rw [GoGame.capture_stones_empty] at h0
    rw [h0]
    simp
  rw [hscan] at hlib hrec ⊢
  dsimp only at hlib hrec ⊢
  rw [hrec]
  have hsets : (↑(GoGame.capture_union g.board_size board1
      (GoGame.get_opponent g.current_turn)
      (GoGame.get_neighbors g.board_size pos)) : Set Nat) = captured := by
    rw [hcap]
    exact GoGame.capture_union_eq_captured_set _ _ _ hopp pos hpos
  have hmem : ∀ q, q ∈ captured ↔
      q ∈ GoGame.capture_union g.board_size board1
        (GoGame.get_opponent g.current_turn)
        (GoGame.get_neighbors g.board_size pos) := by
    intro q
    rw [← hsets]
    simp
  have hncard : (captured.ncard : Int) =
      ((GoGame.capture_union g.board_size board1
        (GoGame.get_opponent g.current_turn)
        (GoGame.get_neighbors g.board_size pos)).card : Int) := by
    rw [← hsets, Set.ncard_coe_Finset]
  refine ⟨?_, ?_, ?_, ?_, ?_⟩
  · intro q hq
    show GoGame.capture_stones board1 _ q = GoGame.Stone.EMPTY
    rw [GoGame.capture_stones, if_pos ((hmem q).mp hq)]
  · intro q hq
    show GoGame.capture_stones board1 _ q = board1 q
    rw [GoGame.capture_stones, if_neg (fun hc => hq ((hmem q).mpr hc))]
  · intro hstone
    constructor
    · show (if g.current_turn = GoGame.Stone.BLACK then _ else _) = _
      rw [if_pos hstone, hncard]
    · show (if g.current_turn = GoGame.Stone.BLACK then _ else _) = _
      rw [if_pos hstone]
  · intro hstone
    have hnb : ¬ (g.current_turn = GoGame.Stone.BLACK) := by
      rw [hstone]; intro h2; cases h2
    constructor
    · show (if g.current_turn = GoGame.Stone.BLACK then _ else _) = _
      rw [if_neg hnb, hncard]
    · show (if g.current_turn = GoGame.Stone.BLACK then _ else _) = _
      rw [if_neg hnb]
  · -- liberty of the mover's group on the post-capture board
    have hposU : pos ∉ GoGame.capture_union g.board_size board1
        (GoGame.get_opponent g.current_turn)
        (GoGame.get_neighbors g.board_size pos) := by
      intro hq
      rw [GoGame.mem_capture_union] at hq
      obtain ⟨n, hnn, hcn, hz, hq⟩ := hq
      have hn : n < g.board_size * g.board_size :=
        GoGame.get_neighbors_lt _ pos n hpos hnn
      rw [GoGame.find_group_spec _ _ n hn (by rw [hcn]; exact hopp), hcn] at hq
      have hcolor := GoGame.reach_colored hq hcn
      rw [hb1] at hcolor
      simp only [if_pos rfl] at hcolor
      exact GoGame.get_opponent_ne_self g.current_turn hcolor.symm
    have hb2pos : GoGame.capture_stones board1
        (GoGame.capture_union g.board_size board1
          (GoGame.get_opponent g.current_turn)
          (GoGame.get_neighbors g.board_size pos)) pos = g.current_turn := by
      rw [GoGame.capture_stones, if_neg hposU, hb1]
      simp
    have hstone_ne : g.current_turn ≠ GoGame.Stone.EMPTY := by
      intro hst
      apply hlib
      rw [GoGame.find_group, if_pos (by rw [hb2pos, hst])]
      simp [GoGame.count_liberties]
    rw [ne_eq, GoGame.count_liberties_eq_zero_iff] at hlib
    push_neg at hlib
    obtain ⟨m, hm, e, he, hbe⟩ := hlib
    rw [GoGame.find_group_spec _ _ pos hpos
      (by rw [hb2pos]; exact hstone_ne), hb2pos] at hm
    exact ⟨m, e, hm, he, hbe⟩

/-- Witness for C2: a concrete successful move, with the suicide-test
conclusion instantiated. -/
theorem go_make_move_capture_correct_witness :
    (GoGame.make_move GoGame.demo_joined "alice" 0 0).2.1 = true ∧
    (∃ m e, GoGame.SameColorReach GoGame.demo_joined.board_size
        ((GoGame.make_move GoGame.demo_joined "alice" 0 0).1.board)
        GoGame.demo_joined.current_turn
        (GoGame.xy_to_pos GoGame.demo_joined.board_size
          (0 : Int).toNat (0 : Int).toNat) m ∧
      e ∈ GoGame.get_neighbors GoGame.demo_joined.board_size m ∧
      (GoGame.make_move GoGame.demo_joined "alice" 0 0).1.board e =
        GoGame.Stone.EMPTY) :=
  ⟨rfl, (go_make_move_capture_correct GoGame.demo_joined "alice" 0 0 rfl
      _ rfl _ rfl _ rfl).2.2.2.2⟩


/-- C6: the xiangqi piece-legality check accepts a cannon move iff the two
cells share a rank or a file and there are zero screening pieces strictly
between them when the target is empty, exactly one when the target holds an
opposing piece; any other screen count, a same-side target, or a
non-straight move is rejected. -/
theorem xiangqi_cannon_move_iff (board : Nat → Xiangqi.Piece) (fp tp : Nat)
    (_hf : fp < 90) (_ht : tp < 90)
    (hc : board fp = Xiangqi.Piece.R_CANNON ∨ board fp = Xiangqi.Piece.B_CANNON) :
    (Xiangqi.is_valid_piece_move board fp tp = true ↔
      (fp / 9 = tp / 9 ∨ fp % 9 = tp % 9) ∧
      ((board tp = Xiangqi.Piece.EMPTY ∧
          Xiangqi.get_pieces_between board fp tp = 0) ∨
       (board tp ≠ Xiangqi.Piece.EMPTY ∧
          Xiangqi.get_piece_side (board tp) ≠ Xiangqi.get_piece_side (board fp) ∧
          Xiangqi.get_pieces_between board fp tp = 1))) := by
  rcases hc with hcp | hcp <;>
  · rw [Xiangqi.is_valid_piece_move]
    rw [if_neg (show ¬ (board fp = Xiangqi.Piece.EMPTY) by rw [hcp]; decide)]
    by_cases hft : fp = tp
    · rw [if_pos hft]
      constructor
      · intro h
        cases h
      · rintro ⟨h1, ⟨h2, h3⟩ | ⟨h2, h3, h4⟩⟩
        · rw [← hft] at h2
          exact absurd (hcp.symm.trans h2) (by decide)
        · rw [← hft] at h3
          exact absurd rfl h3
    · rw [if_neg hft]
      obtain ⟨sd, hsd⟩ : ∃ sd, Xiangqi.get_piece_side (board fp) = some sd := by
        rw [hcp]
        exact ⟨_, rfl⟩
      by_cases hsame : board tp ≠ Xiangqi.Piece.EMPTY ∧
          Xiangqi.get_piece_side (board fp) = Xiangqi.get_piece_side (board tp)
      · rw [if_pos hsame]
        simp only [Bool.false_eq_true, false_iff]
        rintro ⟨h1, ⟨h2, h3⟩ | ⟨h2, h3, h4⟩⟩
        · exact hsame.1 h2
        · exact h3 hsame.2.symm
      · rw [if_neg hsame]
        simp only [hsd]
        rw [if_neg (show ¬ (board fp = Xiangqi.Piece.R_KING ∨
            board fp = Xiangqi.Piece.B_KING) by rw [hcp]; decide)]
        rw [if_neg (show ¬ (board fp = Xiangqi.Piece.R_ADVISOR ∨
            board fp = Xiangqi.Piece.B_ADVISOR) by rw [hcp]; decide)]
        rw [if_neg (show ¬ (board fp = Xiangqi.Piece.R_ELEPHANT ∨
            board fp = Xiangqi.Piece.B_ELEPHANT) by rw [hcp]; decide)]
        rw [if_neg (show ¬ (board fp = Xiangqi.Piece.R_HORSE ∨
            board fp = Xiangqi.Piece.B_HORSE) by rw [hcp]; decide)]
        rw [if_neg (show ¬ (board fp = Xiangqi.Piece.R_CHARIOT ∨
            board fp = Xiangqi.Piece.B_CHARIOT) by rw [hcp]; decide)]
        rw [if_pos (show board fp = Xiangqi.Piece.R_CANNON ∨
            board fp = Xiangqi.Piece.B_CANNON by rw [hcp]; decide)]
        by_cases hstr : (((tp / 9 : Nat) : Int) - ((fp / 9 : Nat) : Int) ≠ 0 ∧
            ((tp % 9 : Nat) : Int) - ((fp % 9 : Nat) : Int) ≠ 0)
        · rw [if_pos hstr]
          simp only [Bool.false_eq_true, false_iff]
          rintro ⟨h1, -⟩
          rcases h1 with h1 | h1
          · exact hstr.1 (by omega)
          · exact hstr.2 (by omega)
        · rw [if_neg hstr]
          have hstr2 : fp / 9 = tp / 9 ∨ fp % 9 = tp % 9 := by
            by_contra hcon
            push_neg at hcon
            exact hstr ⟨by omega, by omega⟩
          by_cases hemp : board tp = Xiangqi.Piece.EMPTY
          · rw [if_pos hemp]
            simp only [decide_eq_true_eq]
            constructor
            · intro h0
              exact ⟨hstr2, Or.inl ⟨hemp, h0⟩⟩
            · rintro ⟨-, ⟨-, h0⟩ | ⟨hne, -, -⟩⟩
              · exact h0
              · exact absurd hemp hne
          · rw [if_neg hemp]
            simp only [decide_eq_true_eq]
            constructor
            · intro h1
              refine ⟨hstr2, Or.inr ⟨hemp, ?_, h1⟩⟩
              intro hside
              exact hsame ⟨hemp, by rw [hsd]; exact hside.symm⟩
            · rintro ⟨-, ⟨he, -⟩ | ⟨-, -, h1⟩⟩
              · exact absurd he hemp
              · exact h1

/-- Witness for C6: the cannon capture with exactly one screen on the file
(red cannon a1, screen a3, black chariot a5). -/
theorem xiangqi_cannon_move_iff_witness :
    Xiangqi.demo_cannon_board 0 = Xiangqi.Piece.R_CANNON ∧
    (Xiangqi.is_valid_piece_move Xiangqi.demo_cannon_board 0 36 = true ↔
      (0 / 9 = 36 / 9 ∨ 0 % 9 = 36 % 9) ∧
      ((Xiangqi.demo_cannon_board 36 = Xiangqi.Piece.EMPTY ∧
          Xiangqi.get_pieces_between Xiangqi.demo_cannon_board 0 36 = 0) ∨
       (Xiangqi.demo_cannon_board 36 ≠ Xiangqi.Piece.EMPTY ∧
          Xiangqi.get_piece_side (Xiangqi.demo_cannon_board 36) ≠
            Xiangqi.get_piece_side (Xiangqi.demo_cannon_board 0) ∧
          Xiangqi.get_pieces_between Xiangqi.demo_cannon_board 0 36 = 1))) :=
  ⟨rfl, xiangqi_cannon_move_iff Xiangqi.demo_cannon_board 0 36
    (by decide) (by decide) (Or.inl rfl)⟩


namespace Xiangqi

/-- Double application of `get_opponent` is the identity. -/
theorem get_opponent_get_opponent (s : Side) :
    get_opponent (get_opponent s) = s := by
  cases s <;> rfl

/-- A committed `make_move_commit` classifies checkmate and stalemate on
the resulting board: with no escaping move for the opponent the game is
finished and the mover wins. -/
theorem make_move_commit_classifies (g : State) (fp tp : Nat)
    (g' : State) (msg : String)
    (h : make_move_commit g fp tp = (g', true, msg)) :
    (is_in_check g'.board (get_opponent g.current_turn) = true ∧
       has_valid_move g'.board (get_opponent g.current_turn) = false →
       g'.is_finished = true ∧ g'.winner = some g.current_turn) ∧
    (is_in_check g'.board (get_opponent g.current_turn) = false ∧
       has_valid_move g'.board (get_opponent g.current_turn) = false →
       g'.is_finished = true ∧ g'.winner = some g.current_turn) := by
  simp only [make_move_commit] at h
  split at h
  next => simp at h
  split at h
  next =>
    obtain ⟨hg, -⟩ := Prod.mk.injEq .. |>.mp h
    subst hg
    constructor <;> intro _ <;>
      exact ⟨rfl, congrArg some (get_opponent_get_opponent g.current_turn)⟩
  rename_i hcm
  split at h
  next =>
    obtain ⟨hg, -⟩ := Prod.mk.injEq .. |>.mp h
    subst hg
    constructor <;> intro _ <;>
      exact ⟨rfl, congrArg some (get_opponent_get_opponent g.current_turn)⟩
  rename_i hsm
  obtain ⟨hg, -⟩ := Prod.mk.injEq .. |>.mp h
  subst hg
  refine ⟨fun hp => ?_, fun hp => ?_⟩ <;>
    obtain ⟨hic, hvm⟩ := hp <;> dsimp only at hic hvm
  · exact absurd (by rw [hic, hvm]; rfl) hcm
  · exact absurd (by rw [hic, hvm]; rfl) hsm

end Xiangqi

/-- C5: after any committed xiangqi move, if the opponent is in check and
has no move escaping check the game finishes with the mover as winner
(checkmate), and if the opponent is not in check but has no legal move at
all the game also finishes with the mover as winner (stalemate is a loss
for the stalemated side, not a draw). -/
theorem xiangqi_checkmate_stalemate (g : Xiangqi.State) (pid : String)
    (fp tp : Int)
    (hok : (Xiangqi.make_move g pid fp tp).2.1 = true) :
    (Xiangqi.is_in_check (Xiangqi.make_move g pid fp tp).1.board
          (Xiangqi.get_opponent g.current_turn) = true ∧
       Xiangqi.has_valid_move (Xiangqi.make_move g pid fp tp).1.board
          (Xiangqi.get_opponent g.current_turn) = false →
       (Xiangqi.make_move g pid fp tp).1.is_finished = true ∧
       (Xiangqi.make_move g pid fp tp).1.winner = some g.current_turn) ∧
    (Xiangqi.is_in_check (Xiangqi.make_move g pid fp tp).1.board
          (Xiangqi.get_opponent g.current_turn) = false ∧
       Xiangqi.has_valid_move (Xiangqi.make_move g pid fp tp).1.board
          (Xiangqi.get_opponent g.current_turn) = false →
       (Xiangqi.make_move g pid fp tp).1.is_finished = true ∧
       (Xiangqi.make_move g pid fp tp).1.winner = some g.current_turn) := by
  rcases hmk : Xiangqi.make_move g pid fp tp with ⟨g', ok, msg⟩
  rw [hmk] at hok
  dsimp only at hok
  subst hok
  simp only [Xiangqi.make_move] at hmk
  split at hmk
  next => simp at hmk
  split at hmk
  next => simp at hmk
  split at hmk
  next => simp at hmk
  split at hmk
  next => simp at hmk
  split at hmk
  next => simp at hmk
  split at hmk
  next => simp at hmk
  split at hmk
  next => simp at hmk
  split at hmk
  next => simp at hmk
  exact Xiangqi.make_move_commit_classifies g _ _ g' msg hmk

set_option maxRecDepth 10000 in
/-- Witness for C5: an ordinary committed chariot move in a sparse session
(red chariot a8 to a9), instantiating the checkmate/stalemate classifier. -/
theorem xiangqi_checkmate_stalemate_witness :
    (Xiangqi.make_move Xiangqi.demo_state "alice" 63 72).2.1 = true ∧
    ((Xiangqi.is_in_check
          (Xiangqi.make_move Xiangqi.demo_state "alice" 63 72).1.board
          (Xiangqi.get_opponent Xiangqi.demo_state.current_turn) = true ∧
       Xiangqi.has_valid_move
          (Xiangqi.make_move Xiangqi.demo_state "alice" 63 72).1.board
          (Xiangqi.get_opponent Xiangqi.demo_state.current_turn) = false →
       (Xiangqi.make_move Xiangqi.demo_state "alice" 63 72).1.is_finished = true ∧
       (Xiangqi.make_move Xiangqi.demo_state "alice" 63 72).1.winner =
         some Xiangqi.demo_state.current_turn) ∧
     (Xiangqi.is_in_check
          (Xiangqi.make_move Xiangqi.demo_state "alice" 63 72).1.board
          (Xiangqi.get_opponent Xiangqi.demo_state.current_turn) = false ∧
       Xiangqi.has_valid_move
          (Xiangqi.make_move Xiangqi.demo_state "alice" 63 72).1.board
          (Xiangqi.get_opponent Xiangqi.demo_state.current_turn) = false →
       (Xiangqi.make_move Xiangqi.demo_state "alice" 63 72).1.is_finished = true ∧
       (Xiangqi.make_move Xiangqi.demo_state "alice" 63 72).1.winner =
         some Xiangqi.demo_state.current_turn)) :=
  ⟨rfl, xiangqi_checkmate_stalemate Xiangqi.demo_state "alice" 63 72 rfl⟩


namespace Junqi

/-- `check_game_end` keeps `player_a_side`. -/
theorem check_game_end_player_a_side (g : State) :
    (check_game_end g).player_a_side = g.player_a_side := by
  simp only [check_game_end]
  split_ifs <;> rfl

/-- `check_game_end` keeps `player_a`. -/
theorem check_game_end_player_a (g : State) :
    (check_game_end g).player_a = g.player_a := by
  simp only [check_game_end]
  split_ifs <;> rfl

/-- `check_game_end` keeps `player_b`. -/
theorem check_game_end_player_b (g : State) :
    (check_game_end g).player_b = g.player_b := by
  simp only [check_game_end]
  split_ifs <;> rfl

/-- `surrender` only touches `is_finished` and `winner`. -/
theorem surrender_fields (g : State) (pid : String) :
    (surrender g pid).1.player_a_side = g.player_a_side ∧
    (surrender g pid).1.player_a = g.player_a ∧
    (surrender g pid).1.player_b = g.player_b ∧
    (surrender g pid).1.current_turn = g.current_turn := by
  simp only [surrender]
  split_ifs <;> exact ⟨rfl, rfl, rfl, rfl⟩

/-- `join` only ever binds `player_b`, and only when it was free. -/
theorem join_fields (g : State) (pid : String) :
    (Junqi.join g pid).1.player_a_side = g.player_a_side ∧
    (Junqi.join g pid).1.player_a = g.player_a ∧
    (Junqi.join g pid).1.current_turn = g.current_turn := by
  simp only [Junqi.join]
  split_ifs <;> exact ⟨rfl, rfl, rfl⟩

/-- `join` leaves a bound `player_b` slot alone. -/
theorem join_player_b (g : State) (pid : String) (h : g.player_b ≠ none) :
    (Junqi.join g pid).1.player_b = g.player_b := by
  simp only [Junqi.join]
  rw [if_pos h]

/-- A failed `flip` returns the state unchanged. -/
theorem flip_not_ok (g : State) (pid : String) (pos : Int) (g' : State)
    (msg : String) (h : flip g pid pos = (g', false, msg)) : g' = g := by
  simp only [flip] at h
  split at h
  next => exact (Prod.mk.injEq .. |>.mp h).1.symm
  split at h
  next => exact (Prod.mk.injEq .. |>.mp h).1.symm
  split at h
  next => exact (Prod.mk.injEq .. |>.mp h).1.symm
  split at h
  next => exact (Prod.mk.injEq .. |>.mp h).1.symm
  split at h
  next => exact (Prod.mk.injEq .. |>.mp h).1.symm
  next piece hp =>
    split at h
    next => exact (Prod.mk.injEq .. |>.mp h).1.symm
    next => simp at h

/-- Success inversion for `flip`: the guards that had to pass and the
fields of the committed state. -/
theorem flip_ok_fields (g : State) (pid : String) (pos : Int) (g' : State)
    (msg : String) (h : flip g pid pos = (g', true, msg)) :
    g.player_b ≠ none ∧ some pid = get_current_player g ∧
    ∃ piece, g.board pos.toNat = some piece ∧ piece.revealed = false ∧
      g'.player_a = g.player_a ∧ g'.player_b = g.player_b ∧
      g'.player_a_side =
        (if g.player_a_side = none then some piece.side else g.player_a_side) := by
  simp only [flip] at h
  split at h
  next => simp at h
  split at h
  next => simp at h
  rename_i hb
  split at h
  next => simp at h
  rename_i hturn
  split at h
  next => simp at h
  split at h
  next => simp at h
  next piece hp =>
    split at h
    next => simp at h
    rename_i hrev
    obtain ⟨hg, -⟩ := Prod.mk.injEq .. |>.mp h
    subst hg
    exact ⟨hb, not_not.mp hturn, piece, hp, Bool.not_eq_true _ ▸ hrev, rfl, rfl, rfl⟩

/-- The battle branch always reports success. -/
theorem move_battle_commit_ok (g : State) (piece target : Piece) (fp tp : Nat) :
    (move_battle_commit g piece target fp tp).2.1 = true := by
  simp only [move_battle_commit]

/-- The battle branch never touches the player fields. -/
theorem move_battle_commit_fields (g : State) (piece target : Piece)
    (fp tp : Nat) :
    (move_battle_commit g piece target fp tp).1.player_a = g.player_a ∧
    (move_battle_commit g piece target fp tp).1.player_b = g.player_b ∧
    (move_battle_commit g piece target fp tp).1.player_a_side = g.player_a_side := by
  simp only [move_battle_commit]
  refine ⟨?_, ?_, ?_⟩ <;>
  · dsimp only
    split
    · simp only [check_game_end_player_a_side, check_game_end_player_a,
        check_game_end_player_b]
      split <;> rfl
    · rfl

/-- A failed `move_finish` returns the state unchanged. -/
theorem move_finish_not_ok (g : State) (pid : String) (piece : Piece)
    (fp tp : Nat) (g' : State) (msg : String)
    (h : move_finish g pid piece fp tp = (g', false, msg)) : g' = g := by
  simp only [move_finish] at h
  split at h
  next => simp at h
  next target ht =>
    split at h
    next => exact (Prod.mk.injEq .. |>.mp h).1.symm
    split at h
    next => exact (Prod.mk.injEq .. |>.mp h).1.symm
    next =>
      exact absurd ((congrArg (fun t => t.2.1) h).symm.trans
        (move_battle_commit_ok g piece target fp tp)) (by simp)

/-- A successful `move_finish` never touches the player fields. -/
theorem move_finish_ok_fields (g : State) (pid : String) (piece : Piece)
    (fp tp : Nat) (g' : State) (msg : String)
    (h : move_finish g pid piece fp tp = (g', true, msg)) :
    g'.player_a = g.player_a ∧ g'.player_b = g.player_b ∧
    g'.player_a_side = g.player_a_side := by
  simp only [move_finish] at h
  split at h
  next =>
    obtain ⟨hg, -⟩ := Prod.mk.injEq .. |>.mp h
    subst hg
    exact ⟨rfl, rfl, rfl⟩
  next target ht =>
    split at h
    next => simp at h
    split at h
    next => simp at h
    next =>
      have hg : g' = (move_battle_commit g piece target fp tp).1 :=
        (congrArg (fun t => t.1) h).symm
      rw [hg]
      exact move_battle_commit_fields g piece target fp tp

/-- A failed `move` returns the state unchanged. -/
theorem move_not_ok (g : State) (pid : String) (fp tp : Int) (g' : State)
    (msg : String) (h : move g pid fp tp = (g', false, msg)) : g' = g := by
  simp only [move] at h
  split at h
  next => exact (Prod.mk.injEq .. |>.mp h).1.symm
  split at h
  next => exact (Prod.mk.injEq .. |>.mp h).1.symm
  split at h
  next => exact (Prod.mk.injEq .. |>.mp h).1.symm
  split at h
  next => exact (Prod.mk.injEq .. |>.mp h).1.symm
  split at h
  next => exact (Prod.mk.injEq .. |>.mp h).1.symm
  split at h
  next => exact (Prod.mk.injEq .. |>.mp h).1.symm
  split at h
  next => exact (Prod.mk.injEq .. |>.mp h).1.symm
  next piece hp =>
    split at h
    next => exact (Prod.mk.injEq .. |>.mp h).1.symm
    split at h
    next => exact (Prod.mk.injEq .. |>.mp h).1.symm
    split at h
    next => exact (Prod.mk.injEq .. |>.mp h).1.symm
    split at h
    next => exact (Prod.mk.injEq .. |>.mp h).1.symm
    next => exact move_finish_not_ok g pid piece _ _ g' msg h

/-- Success inversion for `move`: sides were already fixed, both players
bound, and the player fields of the committed state are untouched. -/
theorem move_ok_fields (g : State) (pid : String) (fp tp : Int) (g' : State)
    (msg : String) (h : move g pid fp tp = (g', true, msg)) :
    g.player_a_side ≠ none ∧ g.player_b ≠ none ∧
    g'.player_a = g.player_a ∧ g'.player_b = g.player_b ∧
    g'.player_a_side = g.player_a_side := by
  simp only [move] at h
  split at h
  next => simp at h
  split at h
  next => simp at h
  rename_i hb
  split at h
  next => simp at h
  split at h
  next => simp at h
  rename_i hside
  split at h
  next => simp at h
  split at h
  next => simp at h
  split at h
  next => simp at h
  next piece hp =>
    split at h
    next => simp at h
    split at h
    next => simp at h
    split at h
    next => simp at h
    split at h
    next => simp at h
    next =>
      exact ⟨hside, hb, move_finish_ok_fields g pid piece _ _ g' msg h⟩

/-- Reachability invariant: before sides are fixed it is player A's turn,
and once sides are fixed both players are bound. -/
theorem sides_invariant (g : State) (hg : Reachable g) :
    (g.player_a_side = none → g.current_turn = 1) ∧
    (g.player_a_side ≠ none → g.player_b ≠ none) := by
  induction hg with
  | create pid b0 h => exact ⟨fun _ => rfl, fun h' => absurd rfl h'⟩
  | join g pid hgr ih =>
    by_cases hb : g.player_b ≠ none
    · have he : (Junqi.join g pid).1 = g := by
        simp only [Junqi.join]; rw [if_pos hb]
      rw [he]; exact ih
    · have hside : g.player_a_side = none := by
        by_contra hs
        exact hb (ih.2 hs)
      simp only [Junqi.join]
      rw [if_neg hb]
      split_ifs with hpa
      · exact ih
      · exact ⟨fun _ => ih.1 hside, fun _ => Option.some_ne_none pid⟩
  | flip g pid pos hgr ih =>
    rcases hf : Junqi.flip g pid pos with ⟨g', ok, msg⟩
    cases ok with
    | false => rw [flip_not_ok g pid pos g' msg hf]; exact ih
    | true =>
      obtain ⟨hb, hturn, piece, hp, hrev, hpa, hpb, hps⟩ :=
        flip_ok_fields g pid pos g' msg hf
      refine ⟨fun h0 => ?_, fun _ => ?_⟩
      · rw [hps] at h0
        by_cases hgs : g.player_a_side = none
        · rw [if_pos hgs] at h0; exact absurd h0 (Option.some_ne_none _)
        · rw [if_neg hgs] at h0; exact absurd h0 hgs
      · rw [hpb]; exact hb
  | move g pid fp tp hgr ih =>
    rcases hf : Junqi.move g pid fp tp with ⟨g', ok, msg⟩
    cases ok with
    | false => rw [move_not_ok g pid fp tp g' msg hf]; exact ih
    | true =>
      obtain ⟨hside, hb, hpa, hpb, hps⟩ := move_ok_fields g pid fp tp g' msg hf
      refine ⟨fun h0 => ?_, fun _ => ?_⟩
      · rw [hps] at h0; exact absurd h0 hside
      · rw [hpb]; exact hb
  | surrender g pid hgr ih =>
    obtain ⟨hps, hpa, hpb, hct⟩ := surrender_fields g pid
    refine ⟨fun h0 => ?_, fun h0 => ?_⟩
    · rw [hct]; exact ih.1 (hps ▸ h0)
    · rw [hpb]; exact ih.2 (hps ▸ h0)

end Junqi

/-- C8: in every reachable junqi session, before sides are fixed it is the
turn of player A, so the very first successful flip is made by player A and
fixes player A's side to the side of the revealed piece, the other player
being assigned the opposite side; and once fixed, no operation ever changes
the side assignment or the player bindings. -/
theorem junqi_first_flip_fixes_sides (g : Junqi.State) (hg : Junqi.Reachable g) :
    (g.player_a_side = none → g.current_turn = 1) ∧
    (∀ pid pos g' msg, g.player_a_side = none →
       Junqi.flip g pid pos = (g', true, msg) →
       pid = g.player_a ∧
       ∃ piece, g.board pos.toNat = some piece ∧
         g'.player_a_side = some piece.side ∧
         Junqi.get_player_side g' pid = some piece.side ∧
         (∀ qid, g.player_b = some qid → qid ≠ g.player_a →
           Junqi.get_player_side g' qid =
             some (if piece.side = Junqi.Side.RED then Junqi.Side.BLUE
                   else Junqi.Side.RED))) ∧
    (g.player_a_side ≠ none → ∀ g2, Junqi.Step g g2 →
       g2.player_a_side = g.player_a_side ∧ g2.player_a = g.player_a ∧
       g2.player_b = g.player_b) := by
  obtain ⟨h1, h2⟩ := Junqi.sides_invariant g hg
  refine ⟨h1, ?_, ?_⟩
  · intro pid pos g' msg hnone hf
    obtain ⟨hb, hturn, piece, hp, hrev, hpa, hpb, hps⟩ :=
      Junqi.flip_ok_fields g pid pos g' msg hf
    have hcurr : Junqi.get_current_player g = some g.player_a := by
      simp only [Junqi.get_current_player]
      rw [if_pos (h1 hnone)]
    have hpid : pid = g.player_a := by
      rw [hcurr] at hturn
      exact Option.some.inj hturn
    have hps' : g'.player_a_side = some piece.side := by
      rw [hps, if_pos hnone]
    refine ⟨hpid, piece, hp, hps', ?_, ?_⟩
    · simp [Junqi.get_player_side, hps', hpa, hpid]
    · intro qid hq hqa
      simp [Junqi.get_player_side, hps', hpa, hpb, hq, hqa]
  · intro hsome g2 hstep
    rcases hstep with ⟨pid, rfl⟩ | ⟨pid, pos, rfl⟩ | ⟨pid, fp, tp, rfl⟩ | ⟨pid, rfl⟩
    · exact ⟨(Junqi.join_fields g pid).1, (Junqi.join_fields g pid).2.1,
        Junqi.join_player_b g pid (h2 hsome)⟩
    · rcases hf : Junqi.flip g pid pos with ⟨g', ok, msg⟩
      cases ok with
      | false => rw [Junqi.flip_not_ok g pid pos g' msg hf]; exact ⟨rfl, rfl, rfl⟩
      | true =>
        obtain ⟨hb, hturn, piece, hp, hrev, hpa, hpb, hps⟩ :=
          Junqi.flip_ok_fields g pid pos g' msg hf
        refine ⟨?_, hpa, hpb⟩
        rw [hps, if_neg hsome]
    · rcases hf : Junqi.move g pid fp tp with ⟨g', ok, msg⟩
      cases ok with
      | false => rw [Junqi.move_not_ok g pid fp tp g' msg hf]; exact ⟨rfl, rfl, rfl⟩
      | true =>
        obtain ⟨-, -, hpa, hpb, hps⟩ := Junqi.move_ok_fields g pid fp tp g' msg hf
        exact ⟨hps, hpa, hpb⟩
    · obtain ⟨hps, hpa, hpb, -⟩ := Junqi.surrender_fields g pid
      exact ⟨hps, hpa, hpb⟩

/-- Witness for C8: the freshly joined demo session, whose reachability is
established through create and join. -/
theorem junqi_first_flip_fixes_sides_witness :
    (Junqi.demo_joined.player_a_side = none → Junqi.demo_joined.current_turn = 1) ∧
    (∀ pid pos g' msg, Junqi.demo_joined.player_a_side = none →
       Junqi.flip Junqi.demo_joined pid pos = (g', true, msg) →
       pid = Junqi.demo_joined.player_a ∧
       ∃ piece, Junqi.demo_joined.board pos.toNat = some piece ∧
         g'.player_a_side = some piece.side ∧
         Junqi.get_player_side g' pid = some piece.side ∧
         (∀ qid, Junqi.demo_joined.player_b = some qid →
           qid ≠ Junqi.demo_joined.player_a →
           Junqi.get_player_side g' qid =
             some (if piece.side = Junqi.Side.RED then Junqi.Side.BLUE
                   else Junqi.Side.RED))) ∧
    (Junqi.demo_joined.player_a_side ≠ none →
       ∀ g2, Junqi.Step Junqi.demo_joined g2 →
       g2.player_a_side = Junqi.demo_joined.player_a_side ∧
       g2.player_a = Junqi.demo_joined.player_a ∧
       g2.player_b = Junqi.demo_joined.player_b) :=
  junqi_first_flip_fixes_sides Junqi.demo_joined
    (Junqi.Reachable.join _ "bob"
      (Junqi.Reachable.create "alice" Junqi.demo_board0 (fun pos p h => by
        by_cases h0 : pos = 0
        · subst h0
          cases Option.some.inj
            (show some (⟨Junqi.PieceType.COMMANDER, Junqi.Side.RED, false⟩ : Junqi.Piece) =
              some p from h)
          rfl
        · simp [Junqi.demo_board0, h0] at h)))


namespace Junqi

/-- A bomb attacking a flag: the battle is a mutual-destruction draw, both
pieces leave the board, the flag counts as captured and the game ends with
the flag-owner's opponent as winner. -/
theorem bomb_flag_commit (g : State) (piece target : Piece) (fp tp : Nat)
    (g' : State) (msg : String)
    (hm : move_battle_commit g piece target fp tp = (g', true, msg))
    (hbomb : piece.piece_type = PieceType.BOMB)
    (hflag : target.piece_type = PieceType.FLAG)
    (hrf : g.red_flag_captured = false) :
    battle piece target = "draw" ∧
    g'.board fp = none ∧ g'.board tp = none ∧
    (target.side = Side.RED → g'.red_flag_captured = true) ∧
    (target.side = Side.BLUE → g'.blue_flag_captured = true) ∧
    g'.is_finished = true ∧
    (target.side = Side.RED →
      g'.winner =
        (if g.player_a_side = some Side.BLUE then some g.player_a else g.player_b)) ∧
    (target.side = Side.BLUE →
      g'.winner =
        (if g.player_a_side = some Side.RED then some g.player_a else g.player_b)) := by
  have hbattle : battle piece target = "draw" := by
    rw [battle, if_pos (Or.inl hbomb)]
  refine ⟨hbattle, ?_⟩
  simp only [move_battle_commit, hbattle] at hm
  simp only [if_neg (show ¬("draw" : String) = "win" by decide),
    if_neg (show ¬("draw" : String) = "lose" by decide), if_pos hflag] at hm
  by_cases hts : target.side = Side.RED
  · simp only [if_pos hts, check_game_end] at hm
    obtain ⟨hg, -⟩ := Prod.mk.injEq .. |>.mp hm
    subst hg
    refine ⟨by simp, by simp, fun _ => rfl, ?_, rfl, fun _ => rfl, ?_⟩
    · intro h; rw [hts] at h; exact absurd h (by decide)
    · intro h; rw [hts] at h; exact absurd h (by decide)
  · simp only [if_neg hts, check_game_end] at hm
    simp only [if_neg (show ¬({ g with
        board := fun p => if p = fp then none
          else if p = tp then none else g.board p
        last_action := some (PIECE_NAMES piece.piece_type ++ " 与 " ++
          PIECE_NAMES target.piece_type ++ " 同归于尽")
        blue_flag_captured := true } : State).red_flag_captured = true by
        simpa using hrf), if_pos rfl] at hm
    obtain ⟨hg, -⟩ := Prod.mk.injEq .. |>.mp hm
    subst hg
    refine ⟨by simp, by simp, ?_, fun _ => rfl, rfl, ?_, fun _ => rfl⟩
    · intro h; exact absurd h hts
    · intro h; exact absurd h hts

end Junqi

set_option maxHeartbeats 1600000 in
/-- C10: when a bomb moves onto the opposing revealed flag, the battle is
mutual destruction — both pieces are removed — yet the flag counts as
captured and the game immediately finishes with the flag-owner's opponent
as winner. -/
theorem junqi_bomb_flag_mutual_destruction (g : Junqi.State) (pid : String)
    (fp tp : Int) (g' : Junqi.State) (msg : String)
    (piece target : Junqi.Piece)
    (hm : Junqi.move g pid fp tp = (g', true, msg))
    (hfp : g.board fp.toNat = some piece)
    (htp : g.board tp.toNat = some target)
    (hbomb : piece.piece_type = Junqi.PieceType.BOMB)
    (hflag : target.piece_type = Junqi.PieceType.FLAG)
    (hrf : g.red_flag_captured = false) :
    Junqi.battle piece target = "draw" ∧
    g'.board fp.toNat = none ∧ g'.board tp.toNat = none ∧
    (target.side = Junqi.Side.RED → g'.red_flag_captured = true) ∧
    (target.side = Junqi.Side.BLUE → g'.blue_flag_captured = true) ∧
    g'.is_finished = true ∧
    (target.side = Junqi.Side.RED →
      g'.winner = (if g.player_a_side = some Junqi.Side.BLUE then some g.player_a
                   else g.player_b)) ∧
    (target.side = Junqi.Side.BLUE →
      g'.winner = (if g.player_a_side = some Junqi.Side.RED then some g.player_a
                   else g.player_b)) := by
  simp only [Junqi.move] at hm
  split at hm
  next => simp at hm
  split at hm
  next => simp at hm
  split at hm
  next => simp at hm
  split at hm
  next => simp at hm
  split at hm
  next => simp at hm
  split at hm
  next => simp at hm
  split at hm
  next h0 => rw [hfp] at h0; exact absurd h0 (by simp)
  next piece' hp =>
    cases Option.some.inj (hfp.symm.trans hp)
    split at hm
    next => simp at hm
    split at hm
    next => simp at hm
    split at hm
    next => simp at hm
    split at hm
    next => simp at hm
    next =>
      simp only [Junqi.move_finish] at hm
      split at hm
      next h0 => rw [htp] at h0; exact absurd h0 (by simp)
      next target' ht' =>
        cases Option.some.inj (htp.symm.trans ht')
        split at hm
        next => simp at hm
        split at hm
        next => simp at hm
        next =>
          exact Junqi.bomb_flag_commit g piece target fp.toNat tp.toNat g' msg
            hm hbomb hflag hrf

/-- Witness for C10: in the demo session the red bomb at cell 0 attacks the
revealed blue flag at cell 1; both are destroyed and red (player A) wins. -/
theorem junqi_bomb_flag_mutual_destruction_witness :
    Junqi.battle ⟨Junqi.PieceType.BOMB, Junqi.Side.RED, true⟩
        ⟨Junqi.PieceType.FLAG, Junqi.Side.BLUE, true⟩ = "draw" ∧
    (Junqi.move Junqi.demo_bomb_state "alice" 0 1).1.board (0 : Int).toNat = none ∧
    (Junqi.move Junqi.demo_bomb_state "alice" 0 1).1.board (1 : Int).toNat = none ∧
    ((⟨Junqi.PieceType.FLAG, Junqi.Side.BLUE, true⟩ : Junqi.Piece).side =
        Junqi.Side.RED →
      (Junqi.move Junqi.demo_bomb_state "alice" 0 1).1.red_flag_captured = true) ∧
    ((⟨Junqi.PieceType.FLAG, Junqi.Side.BLUE, true⟩ : Junqi.Piece).side =
        Junqi.Side.BLUE →
      (Junqi.move Junqi.demo_bomb_state "alice" 0 1).1.blue_flag_captured = true) ∧
    (Junqi.move Junqi.demo_bomb_state "alice" 0 1).1.is_finished = true ∧
    ((⟨Junqi.PieceType.FLAG, Junqi.Side.BLUE, true⟩ : Junqi.Piece).side =
        Junqi.Side.RED →
      (Junqi.move Junqi.demo_bomb_state "alice" 0 1).1.winner =
        (if Junqi.demo_bomb_state.player_a_side = some Junqi.Side.BLUE
         then some Junqi.demo_bomb_state.player_a
         else Junqi.demo_bomb_state.player_b)) ∧
    ((⟨Junqi.PieceType.FLAG, Junqi.Side.BLUE, true⟩ : Junqi.Piece).side =
        Junqi.Side.BLUE →
      (Junqi.move Junqi.demo_bomb_state "alice" 0 1).1.winner =
        (if Junqi.demo_bomb_state.player_a_side = some Junqi.Side.RED
         then some Junqi.demo_bomb_state.player_a
         else Junqi.demo_bomb_state.player_b)) :=
  junqi_bomb_flag_mutual_destruction Junqi.demo_bomb_state "alice" 0 1
    (Junqi.move Junqi.demo_bomb_state "alice" 0 1).1
    (Junqi.move Junqi.demo_bomb_state "alice" 0 1).2.2
    ⟨Junqi.PieceType.BOMB, Junqi.Side.RED, true⟩
    ⟨Junqi.PieceType.FLAG, Junqi.Side.BLUE, true⟩
    rfl rfl rfl rfl rfl rfl


namespace Gomoku

/-- Decoding the column of `Gomoku.xy_to_pos`. -/
theorem pos_decode_mod (s x y : Nat) (hx : x < s) : xy_to_pos s x y % s = x := by
  rw [xy_to_pos, Nat.add_comm, Nat.add_mul_mod_self_right, Nat.mod_eq_of_lt hx]

/-- Decoding the row of `Gomoku.xy_to_pos`. -/
theorem pos_decode_div (s x y : Nat) (hx : x < s) : xy_to_pos s x y / s = y := by
  have hs : 0 < s := Nat.lt_of_le_of_lt (Nat.zero_le x) hx
  rw [xy_to_pos, Nat.add_comm, Nat.add_mul_div_right _ _ hs,
    Nat.div_eq_of_lt hx, Nat.zero_add]

/-- In-range cells decode injectively. -/
theorem xy_to_pos_inj (s x1 y1 x2 y2 : Nat) (h1 : x1 < s) (h2 : x2 < s)
    (h : xy_to_pos s x1 y1 = xy_to_pos s x2 y2) : x1 = x2 ∧ y1 = y2 := by
  constructor
  · rw [← pos_decode_mod s x1 y1 h1, h, pos_decode_mod s x2 y2 h2]
  · rw [← pos_decode_div s x1 y1 h1, h, pos_decode_div s x2 y2 h2]

/-- Characterization of one directional scan of `_check_win`: it returns
the encodings of the first `n` consecutive step positions that stay on the
board and hold `st`, where `n` is capped by the fuel and otherwise maximal
(the scan stops at the board edge or a colour break). -/
theorem scan_line_spec (bs : Nat) (board : Nat → Stone) (st : Stone)
    (x y dx dy : Int) :
    ∀ (fuel m : Nat), ∃ n : Nat, n ≤ fuel ∧
      scan_line bs board st x y dx dy ((m + 1 : Nat) : Int) fuel =
        (List.range n).map (fun k =>
          xy_to_pos bs (x + dx * ((m + 1 + k : Nat) : Int)).toNat
            (y + dy * ((m + 1 + k : Nat) : Int)).toNat) ∧
      (∀ k : Nat, k < n →
        inb bs (x + dx * ((m + 1 + k : Nat) : Int))
          (y + dy * ((m + 1 + k : Nat) : Int)) ∧
        cell bs board (x + dx * ((m + 1 + k : Nat) : Int))
          (y + dy * ((m + 1 + k : Nat) : Int)) = st) ∧
      (n = fuel ∨
        ¬ inb bs (x + dx * ((m + 1 + n : Nat) : Int))
            (y + dy * ((m + 1 + n : Nat) : Int)) ∨
        cell bs board (x + dx * ((m + 1 + n : Nat) : Int))
          (y + dy * ((m + 1 + n : Nat) : Int)) ≠ st) := by
  intro fuel
  induction fuel with
  | zero =>
    intro m
    exact ⟨0, le_rfl, rfl, fun k hk => absurd hk (Nat.not_lt_zero k), Or.inl rfl⟩
  | succ fuel ih =>
    intro m
    simp only [scan_line]
    by_cases hb : 0 ≤ x + dx * ((m + 1 : Nat) : Int) ∧
        x + dx * ((m + 1 : Nat) : Int) < (bs : Int) ∧
        0 ≤ y + dy * ((m + 1 : Nat) : Int) ∧
        y + dy * ((m + 1 : Nat) : Int) < (bs : Int)
    · rw [if_pos hb]
      by_cases hcell : board (xy_to_pos bs (x + dx * ((m + 1 : Nat) : Int)).toNat
          (y + dy * ((m + 1 : Nat) : Int)).toNat) = st
      · rw [if_pos hcell]
        obtain ⟨n, hn, hlist, hgood, hstop⟩ := ih (m + 1)
        have hone : ((m + 1 : Nat) : Int) + 1 = ((m + 1 + 1 : Nat) : Int) := by push_cast; ring
        refine ⟨n + 1, Nat.succ_le_succ hn, ?_, ?_, ?_⟩
        · rw [List.range_succ_eq_map, List.map_cons, List.map_map, hone, hlist]
          refine congrArg₂ List.cons rfl ?_
          refine List.map_congr_left fun k _ => ?_
          simp only [Function.comp_apply]
          rw [show m + 1 + 1 + k = m + 1 + (k + 1) from by omega]
        · intro k hk
          cases k with
          | zero =>
            refine ⟨hb, ?_⟩
            simp only [cell]
            rw [show m + 1 + 0 = m + 1 from rfl]
            exact hcell
          | succ k =>
            rw [show m + 1 + (k + 1) = m + 1 + 1 + k from by omega]
            exact hgood k (Nat.lt_of_succ_lt_succ hk)
        · rcases hstop with h | h | h
          · exact Or.inl (by omega)
          · refine Or.inr (Or.inl ?_)
            rw [show m + 1 + (n + 1) = m + 1 + 1 + n from by omega]
            exact h
          · refine Or.inr (Or.inr ?_)
            rw [show m + 1 + (n + 1) = m + 1 + 1 + n from by omega]
            exact h
      · rw [if_neg hcell]
        refine ⟨0, Nat.zero_le _, rfl, fun k hk => absurd hk (Nat.not_lt_zero k),
          Or.inr (Or.inr ?_)⟩
        rw [show m + 1 + 0 = m + 1 from rfl]
        simpa only [cell] using hcell
    · rw [if_neg hb]
      refine ⟨0, Nat.zero_le _, rfl, fun k hk => absurd hk (Nat.not_lt_zero k),
        Or.inr (Or.inl ?_)⟩
      rw [show m + 1 + 0 = m + 1 from rfl]
      exact hb

/-- For a single axis, the merged forward/backward scan reaches joint
length five iff five contiguous cells of colour `st` along that axis pass
through `(x, y)`. -/
theorem dir_run_iff (bs : Nat) (board : Nat → Stone) (st : Stone)
    (x y dx dy : Int) (nf nb : Nat)
    (hx : inb bs x y) (hc : cell bs board x y = st)
    (hnf4 : nf ≤ 4) (hnb4 : nb ≤ 4)
    (hgF : ∀ k : Nat, k < nf →
      inb bs (x + dx * ((k + 1 : Nat) : Int)) (y + dy * ((k + 1 : Nat) : Int)) ∧
      cell bs board (x + dx * ((k + 1 : Nat) : Int))
        (y + dy * ((k + 1 : Nat) : Int)) = st)
    (hsF : nf = 4 ∨
      ¬ inb bs (x + dx * ((nf + 1 : Nat) : Int)) (y + dy * ((nf + 1 : Nat) : Int)) ∨
      cell bs board (x + dx * ((nf + 1 : Nat) : Int))
        (y + dy * ((nf + 1 : Nat) : Int)) ≠ st)
    (hgB : ∀ k : Nat, k < nb →
      inb bs (x - dx * ((k + 1 : Nat) : Int)) (y - dy * ((k + 1 : Nat) : Int)) ∧
      cell bs board (x - dx * ((k + 1 : Nat) : Int))
        (y - dy * ((k + 1 : Nat) : Int)) = st)
    (hsB : nb = 4 ∨
      ¬ inb bs (x - dx * ((nb + 1 : Nat) : Int)) (y - dy * ((nb + 1 : Nat) : Int)) ∨
      cell bs board (x - dx * ((nb + 1 : Nat) : Int))
        (y - dy * ((nb + 1 : Nat) : Int)) ≠ st) :
    5 ≤ 1 + nf + nb ↔
      ∃ j : Nat, j ≤ 4 ∧ five_at bs board st (x - dx * j) (y - dy * j) dx dy := by
  constructor
  · intro hlen
    refine ⟨nb, hnb4, fun i hi => ?_⟩
    rcases Nat.lt_trichotomy i nb with hlt | heq | hgt
    · obtain ⟨hb1, hc1⟩ := hgB (nb - i - 1) (by omega)
      have e0 : ((nb - i - 1 + 1 : Nat) : Int) = (nb : Int) - (i : Int) := by omega
      rw [e0] at hb1 hc1
      rw [show x - dx * (nb : Int) + dx * (i : Int) =
            x - dx * ((nb : Int) - (i : Int)) from by ring,
          show y - dy * (nb : Int) + dy * (i : Int) =
            y - dy * ((nb : Int) - (i : Int)) from by ring]
      exact ⟨hb1, hc1⟩
    · subst heq
      rw [show x - dx * (i : Int) + dx * (i : Int) = x from by ring,
          show y - dy * (i : Int) + dy * (i : Int) = y from by ring]
      exact ⟨hx, hc⟩
    · obtain ⟨hb1, hc1⟩ := hgF (i - nb - 1) (by omega)
      have e0 : ((i - nb - 1 + 1 : Nat) : Int) = (i : Int) - (nb : Int) := by omega
      rw [e0] at hb1 hc1
      rw [show x - dx * (nb : Int) + dx * (i : Int) =
            x + dx * ((i : Int) - (nb : Int)) from by ring,
          show y - dy * (nb : Int) + dy * (i : Int) =
            y + dy * ((i : Int) - (nb : Int)) from by ring]
      exact ⟨hb1, hc1⟩
  · rintro ⟨j, hj, hfive⟩
    have hnb : j ≤ nb := by
      by_contra hlt
      push_neg at hlt
      have hnbne : nb ≠ 4 := by omega
      obtain ⟨hb1, hc1⟩ := hfive (j - (nb + 1)) (by omega)
      have e0 : ((j - (nb + 1) : Nat) : Int) = (j : Int) - ((nb + 1 : Nat) : Int) := by
        omega
      rw [e0] at hb1 hc1
      rw [show x - dx * (j : Int) + dx * ((j : Int) - ((nb + 1 : Nat) : Int)) =
            x - dx * ((nb + 1 : Nat) : Int) from by ring,
          show y - dy * (j : Int) + dy * ((j : Int) - ((nb + 1 : Nat) : Int)) =
            y - dy * ((nb + 1 : Nat) : Int) from by ring] at hb1 hc1
      rcases hsB with h | h | h
      · exact hnbne h
      · exact h hb1
      · exact h hc1
    have hnf : 4 - j ≤ nf := by
      by_contra hlt
      push_neg at hlt
      have hnfne : nf ≠ 4 := by omega
      obtain ⟨hb1, hc1⟩ := hfive (j + nf + 1) (by omega)
      have e0 : ((j + nf + 1 : Nat) : Int) = (j : Int) + ((nf + 1 : Nat) : Int) := by
        omega
      rw [e0] at hb1 hc1
      rw [show x - dx * (j : Int) + dx * ((j : Int) + ((nf + 1 : Nat) : Int)) =
            x + dx * ((nf + 1 : Nat) : Int) from by ring,
          show y - dy * (j : Int) + dy * ((j : Int) + ((nf + 1 : Nat) : Int)) =
            y + dy * ((nf + 1 : Nat) : Int) from by ring] at hb1 hc1
      rcases hsF with h | h | h
      · exact hnfne h
      · exact h hb1
      · exact h hc1
    omega

/-- `scan_line_spec` at the call site (`i = 1`, fuel 4). -/
theorem scan4 (bs : Nat) (board : Nat → Stone) (st : Stone) (x y dx dy : Int) :
    ∃ n : Nat, n ≤ 4 ∧
      scan_line bs board st x y dx dy 1 4 =
        (List.range n).map (fun k =>
          xy_to_pos bs (x + dx * ((k + 1 : Nat) : Int)).toNat
            (y + dy * ((k + 1 : Nat) : Int)).toNat) ∧
      (∀ k : Nat, k < n →
        inb bs (x + dx * ((k + 1 : Nat) : Int)) (y + dy * ((k + 1 : Nat) : Int)) ∧
        cell bs board (x + dx * ((k + 1 : Nat) : Int))
          (y + dy * ((k + 1 : Nat) : Int)) = st) ∧
      (n = 4 ∨
        ¬ inb bs (x + dx * ((n + 1 : Nat) : Int)) (y + dy * ((n + 1 : Nat) : Int)) ∨
        cell bs board (x + dx * ((n + 1 : Nat) : Int))
          (y + dy * ((n + 1 : Nat) : Int)) ≠ st) := by
  obtain ⟨n, hn, hlist, hgood, hstop⟩ := scan_line_spec bs board st x y dx dy 4 0
  have e : ∀ k : Nat, 0 + 1 + k = k + 1 := fun k => by omega
  simp only [e] at hlist hgood hstop
  rw [show ((0 + 1 : Nat) : Int) = 1 from by norm_num] at hlist
  exact ⟨n, hn, hlist, hgood, hstop⟩

/-- Data of one full axis scan of `_check_win` through an occupied cell:
scan lengths, the returned position lists, the goodness and stop
conditions, and the length-five criterion. -/
theorem dir_spec (bs : Nat) (board : Nat → Stone) (st : Stone) (x y dx dy : Int)
    (hx : inb bs x y) (hc : cell bs board x y = st) :
    ∃ nf nb : Nat, nf ≤ 4 ∧ nb ≤ 4 ∧
      scan_line bs board st x y dx dy 1 4 =
        (List.range nf).map (fun k =>
          xy_to_pos bs (x + dx * ((k + 1 : Nat) : Int)).toNat
            (y + dy * ((k + 1 : Nat) : Int)).toNat) ∧
      scan_line bs board st x y (-dx) (-dy) 1 4 =
        (List.range nb).map (fun k =>
          xy_to_pos bs (x - dx * ((k + 1 : Nat) : Int)).toNat
            (y - dy * ((k + 1 : Nat) : Int)).toNat) ∧
      (∀ k : Nat, k < nf →
        inb bs (x + dx * ((k + 1 : Nat) : Int)) (y + dy * ((k + 1 : Nat) : Int)) ∧
        cell bs board (x + dx * ((k + 1 : Nat) : Int))
          (y + dy * ((k + 1 : Nat) : Int)) = st) ∧
      (nf = 4 ∨
        ¬ inb bs (x + dx * ((nf + 1 : Nat) : Int)) (y + dy * ((nf + 1 : Nat) : Int)) ∨
        cell bs board (x + dx * ((nf + 1 : Nat) : Int))
          (y + dy * ((nf + 1 : Nat) : Int)) ≠ st) ∧
      (∀ k : Nat, k < nb →
        inb bs (x - dx * ((k + 1 : Nat) : Int)) (y - dy * ((k + 1 : Nat) : Int)) ∧
        cell bs board (x - dx * ((k + 1 : Nat) : Int))
          (y - dy * ((k + 1 : Nat) : Int)) = st) ∧
      (nb = 4 ∨
        ¬ inb bs (x - dx * ((nb + 1 : Nat) : Int)) (y - dy * ((nb + 1 : Nat) : Int)) ∨
        cell bs board (x - dx * ((nb + 1 : Nat) : Int))
          (y - dy * ((nb + 1 : Nat) : Int)) ≠ st) ∧
      (5 ≤ 1 + nf + nb ↔
        ∃ j : Nat, j ≤ 4 ∧ five_at bs board st (x - dx * j) (y - dy * j) dx dy) := by
  obtain ⟨nf, hnf, hlF, hgF, hsF⟩ := scan4 bs board st x y dx dy
  obtain ⟨nb, hnb, hlB, hgB, hsB⟩ := scan4 bs board st x y (-dx) (-dy)
  have ex : ∀ u : Int, x + -dx * u = x - dx * u := fun u => by ring
  have ey : ∀ u : Int, y + -dy * u = y - dy * u := fun u => by ring
  simp only [ex, ey] at hlB hgB hsB
  exact ⟨nf, nb, hnf, hnb, hlF, hlB, hgF, hsF, hgB, hsB,
    dir_run_iff bs board st x y dx dy nf nb hx hc hnf hnb hgF hsF hgB hsB⟩

/-- Full characterization of `_check_win` at an occupied in-range cell:
it fires exactly when five in a row pass through the cell on one of the
four axes, and a returned line is the concatenated axis scan. -/
theorem check_win_spec (bs : Nat) (board : Nat → Stone) (x y : Int)
    (hx : inb bs x y) (hst : board (xy_to_pos bs x.toNat y.toNat) ≠ Stone.EMPTY) :
    ((check_win bs board (xy_to_pos bs x.toNat y.toNat)).isSome = true ↔
      five_through bs board (board (xy_to_pos bs x.toNat y.toNat)) x y) ∧
    (∀ line, check_win bs board (xy_to_pos bs x.toNat y.toNat) = some line →
      ∃ d ∈ axis_dirs, ∃ nf nb : Nat, nf ≤ 4 ∧ nb ≤ 4 ∧ 5 ≤ 1 + nf + nb ∧
        run_data bs board (board (xy_to_pos bs x.toNat y.toNat)) x y d.1 d.2 nf nb ∧
        line = xy_to_pos bs x.toNat y.toNat ::
          ((List.range nf).map (fun k =>
             xy_to_pos bs (x + d.1 * ((k + 1 : Nat) : Int)).toNat
               (y + d.2 * ((k + 1 : Nat) : Int)).toNat) ++
           (List.range nb).map (fun k =>
             xy_to_pos bs (x - d.1 * ((k + 1 : Nat) : Int)).toNat
               (y - d.2 * ((k + 1 : Nat) : Int)).toNat))) := by
  have hxn : x.toNat < bs := by
    obtain ⟨h1, h2, h3, h4⟩ := hx; omega
  have hcx : ((x.toNat : Nat) : Int) = x := Int.toNat_of_nonneg hx.1
  have hcy : ((y.toNat : Nat) : Int) = y := Int.toNat_of_nonneg hx.2.2.1
  obtain ⟨nf1, nb1, hnf1, hnb1, hlF1, hlB1, hgF1, hsF1, hgB1, hsB1, hiff1⟩ :=
    dir_spec bs board (board (xy_to_pos bs x.toNat y.toNat)) x y 1 0 hx rfl
  obtain ⟨nf2, nb2, hnf2, hnb2, hlF2, hlB2, hgF2, hsF2, hgB2, hsB2, hiff2⟩ :=
    dir_spec bs board (board (xy_to_pos bs x.toNat y.toNat)) x y 0 1 hx rfl
  obtain ⟨nf3, nb3, hnf3, hnb3, hlF3, hlB3, hgF3, hsF3, hgB3, hsB3, hiff3⟩ :=
    dir_spec bs board (board (xy_to_pos bs x.toNat y.toNat)) x y 1 1 hx rfl
  obtain ⟨nf4, nb4, hnf4, hnb4, hlF4, hlB4, hgF4, hsF4, hgB4, hsB4, hiff4⟩ :=
    dir_spec bs board (board (xy_to_pos bs x.toNat y.toNat)) x y 1 (-1) hx rfl
  have hcw : check_win bs board (xy_to_pos bs x.toNat y.toNat) =
      check_win_dirs bs board (board (xy_to_pos bs x.toNat y.toNat)) x y
        (xy_to_pos bs x.toNat y.toNat) [(1, 0), (0, 1), (1, 1), (1, -1)] := by
    simp only [check_win]
    rw [if_neg hst, pos_decode_mod bs x.toNat y.toNat hxn,
      pos_decode_div bs x.toNat y.toNat hxn, hcx, hcy]
  rw [hcw]
  simp only [check_win_dirs]
  rw [hlF1, hlB1, hlF2, hlB2, hlF3, hlB3, hlF4, hlB4]
  simp only [List.length_cons, List.length_append, List.length_map, List.length_range]
  by_cases h1 : 5 ≤ nf1 + nb1 + 1
  · rw [if_pos h1]
    refine ⟨⟨fun _ => ?_, fun _ => rfl⟩, fun line hline => ?_⟩
    · obtain ⟨j, hj, hfa⟩ := hiff1.mp (by omega)
      exact ⟨(1, 0), by simp [axis_dirs], j, hj, hfa⟩
    · cases Option.some.inj hline
      exact ⟨(1, 0), by simp [axis_dirs], nf1, nb1, hnf1, hnb1, by omega,
        ⟨hgF1, hsF1, hgB1, hsB1⟩, rfl⟩
  · rw [if_neg h1]
    by_cases h2 : 5 ≤ nf2 + nb2 + 1
    · rw [if_pos h2]
      refine ⟨⟨fun _ => ?_, fun _ => rfl⟩, fun line hline => ?_⟩
      · obtain ⟨j, hj, hfa⟩ := hiff2.mp (by omega)
        exact ⟨(0, 1), by simp [axis_dirs], j, hj, hfa⟩
      · cases Option.some.inj hline
        exact ⟨(0, 1), by simp [axis_dirs], nf2, nb2, hnf2, hnb2, by omega,
          ⟨hgF2, hsF2, hgB2, hsB2⟩, rfl⟩
    · rw [if_neg h2]
      by_cases h3 : 5 ≤ nf3 + nb3 + 1
      · rw [if_pos h3]
        refine ⟨⟨fun _ => ?_, fun _ => rfl⟩, fun line hline => ?_⟩
        · obtain ⟨j, hj, hfa⟩ := hiff3.mp (by omega)
          exact ⟨(1, 1), by simp [axis_dirs], j, hj, hfa⟩
        · cases Option.some.inj hline
          exact ⟨(1, 1), by simp [axis_dirs], nf3, nb3, hnf3, hnb3, by omega,
            ⟨hgF3, hsF3, hgB3, hsB3⟩, rfl⟩
      · rw [if_neg h3]
        by_cases h4 : 5 ≤ nf4 + nb4 + 1
        · rw [if_pos h4]
          refine ⟨⟨fun _ => ?_, fun _ => rfl⟩, fun line hline => ?_⟩
          · obtain ⟨j, hj, hfa⟩ := hiff4.mp (by omega)
            exact ⟨(1, -1), by simp [axis_dirs], j, hj, hfa⟩
          · cases Option.some.inj hline
            exact ⟨(1, -1), by simp [axis_dirs], nf4, nb4, hnf4, hnb4, by omega,
              ⟨hgF4, hsF4, hgB4, hsB4⟩, rfl⟩
        · rw [if_neg h4]
          refine ⟨⟨fun habs => absurd habs (by simp), fun hft => ?_⟩,
            fun line hline => absurd hline (by simp)⟩
          exfalso
          obtain ⟨d, hd, j, hj, hfa⟩ := hft
          simp only [axis_dirs, List.mem_cons, List.not_mem_nil, or_false] at hd
          rcases hd with hd | hd | hd | hd <;> subst hd <;> dsimp only at hfa
          · exact absurd (hiff1.mpr ⟨j, hj, hfa⟩) (by omega)
          · exact absurd (hiff2.mpr ⟨j, hj, hfa⟩) (by omega)
          · exact absurd (hiff3.mpr ⟨j, hj, hfa⟩) (by omega)
          · exact absurd (hiff4.mpr ⟨j, hj, hfa⟩) (by omega)

/-- Placing a stone does not change cells other than the placed one. -/
theorem cell_update_away (bs : Nat) (board0 : Nat → Stone) (stn : Stone)
    (x y u v : Int) (hx : inb bs x y) (hu : inb bs u v)
    (hne : ¬ (u = x ∧ v = y)) :
    cell bs (fun p => if p = xy_to_pos bs x.toNat y.toNat then stn else board0 p)
      u v = cell bs board0 u v := by
  obtain ⟨hx1, hx2, hx3, hx4⟩ := hx
  obtain ⟨hu1, hu2, hu3, hu4⟩ := hu
  simp only [cell]
  rw [if_neg ?_]
  intro he
  obtain ⟨he1, he2⟩ := xy_to_pos_inj bs u.toNat v.toNat x.toNat y.toNat
    (by omega) (by omega) he
  exact hne ⟨by omega, by omega⟩

/-- If the old board had no five in a row, any five on the board after one
placement passes through the placed cell, and therefore yields a five
through the placed point of the placed colour. -/
theorem has_five_update (bs : Nat) (board0 : Nat → Stone) (stn : Stone)
    (x y : Int) (hx : inb bs x y) (hold : ¬ has_five bs board0) :
    has_five bs (fun p => if p = xy_to_pos bs x.toNat y.toNat then stn else board0 p) →
    five_through bs
      (fun p => if p = xy_to_pos bs x.toNat y.toNat then stn else board0 p) stn x y := by
  rintro ⟨st', hst'ne, d, hd, x0, y0, hfa⟩
  have hxn : x.toNat < bs := by obtain ⟨h1, h2, h3, h4⟩ := hx; omega
  by_cases hthru : ∃ i : Nat, i < 5 ∧
      xy_to_pos bs (x0 + d.1 * i).toNat (y0 + d.2 * i).toNat =
        xy_to_pos bs x.toNat y.toNat
  · obtain ⟨i, hi5, henc⟩ := hthru
    obtain ⟨hbi, hci⟩ := hfa i hi5
    obtain ⟨hb1, hb2, hb3, hb4⟩ := hbi
    obtain ⟨hex, hey⟩ := xy_to_pos_inj bs (x0 + d.1 * i).toNat (y0 + d.2 * i).toNat
      x.toNat y.toNat (by omega) hxn henc
    have hx0 : x0 + d.1 * (i : Int) = x := by
      have h1 : (0 : Int) ≤ x := hx.1
      generalize x0 + d.1 * (i : Int) = u at hex hb1
      omega
    have hy0 : y0 + d.2 * (i : Int) = y := by
      have h1 : (0 : Int) ≤ y := hx.2.2.1
      generalize y0 + d.2 * (i : Int) = u at hey hb3
      omega
    have hst'eq : st' = stn := by
      have hcc : cell bs (fun p => if p = xy_to_pos bs x.toNat y.toNat then stn
          else board0 p) x y = stn := by
        simp [cell]
      rw [hx0, hy0] at hci
      exact hci.symm.trans hcc
    subst hst'eq
    refine ⟨d, hd, i, by omega, ?_⟩
    rw [show x - d.1 * (i : Int) = x0 from (eq_sub_of_add_eq hx0).symm,
      show y - d.2 * (i : Int) = y0 from (eq_sub_of_add_eq hy0).symm]
    exact hfa
  · exfalso
    apply hold
    refine ⟨st', hst'ne, d, hd, x0, y0, fun i hi => ?_⟩
    obtain ⟨hbi, hci⟩ := hfa i hi
    refine ⟨hbi, ?_⟩
    have hne : xy_to_pos bs (x0 + d.1 * (i : Int)).toNat
        (y0 + d.2 * (i : Int)).toNat ≠ xy_to_pos bs x.toNat y.toNat :=
      fun he => hthru ⟨i, hi, he⟩
    simp only [cell] at hci ⊢
    simp only [if_neg hne] at hci
    exact hci

/-- On a board with no prior five, the scan data of the winning axis is the
exact maximal run: the fuel cap of 4 can never be reached with the run
continuing beyond it, because the cells beyond the placed stone already
formed a five on the old board. -/
theorem run_data_max_run (bs : Nat) (board0 : Nat → Stone) (stn : Stone)
    (x y dx dy : Int) (nf nb : Nat)
    (hx : inb bs x y) (hst : stn ≠ Stone.EMPTY)
    (hd : (dx, dy) ∈ axis_dirs)
    (hold : ¬ has_five bs board0)
    (hrd : run_data bs
      (fun p => if p = xy_to_pos bs x.toNat y.toNat then stn else board0 p)
      stn x y dx dy nf nb) :
    max_run bs (fun p => if p = xy_to_pos bs x.toNat y.toNat then stn else board0 p)
      stn x y dx dy nb nf := by
  obtain ⟨hgF, hsF, hgB, hsB⟩ := hrd
  have hstep : ∀ i : Int, 1 ≤ i → ¬ (x + dx * i = x ∧ y + dy * i = y) := by
    simp only [axis_dirs, List.mem_cons, List.not_mem_nil, or_false,
      Prod.mk.injEq] at hd
    rcases hd with ⟨h1, h2⟩ | ⟨h1, h2⟩ | ⟨h1, h2⟩ | ⟨h1, h2⟩ <;> subst h1 <;> subst h2 <;>
      rintro i hi ⟨e1, e2⟩ <;> omega
  refine ⟨?_, ?_, ?_, ?_⟩
  · intro i h1 hi
    have := hgF (i - 1) (by omega)
    rwa [show i - 1 + 1 = i from by omega] at this
  · intro i h1 hi
    have := hgB (i - 1) (by omega)
    rwa [show i - 1 + 1 = i from by omega] at this
  · rcases hsF with hnf4 | hblk | hblk
    · by_cases hin : inb bs (x + dx * ((nf + 1 : Nat) : Int))
          (y + dy * ((nf + 1 : Nat) : Int))
      · by_cases hcl : cell bs
            (fun p => if p = xy_to_pos bs x.toNat y.toNat then stn else board0 p)
            (x + dx * ((nf + 1 : Nat) : Int)) (y + dy * ((nf + 1 : Nat) : Int)) = stn
        · exfalso
          apply hold
          subst hnf4
          refine ⟨stn, hst, (dx, dy), hd, x + dx, y + dy, fun i hi => ?_⟩
          have heq : ∀ j : Nat, x + dx + dx * (j : Int) = x + dx * ((j + 1 : Nat) : Int) ∧
              y + dy + dy * (j : Int) = y + dy * ((j + 1 : Nat) : Int) := by
            intro j
            constructor <;> push_cast <;> ring
          obtain ⟨hj1, hj2⟩ := heq i
          rw [hj1, hj2]
          have hgood : inb bs (x + dx * ((i + 1 : Nat) : Int))
              (y + dy * ((i + 1 : Nat) : Int)) ∧
              cell bs (fun p => if p = xy_to_pos bs x.toNat y.toNat then stn
                else board0 p) (x + dx * ((i + 1 : Nat) : Int))
                (y + dy * ((i + 1 : Nat) : Int)) = stn := by
            rcases Nat.lt_or_ge i 4 with hi4 | hi4
            · exact hgF i hi4
            · have hi4' : i = 4 := by omega
              subst hi4'
              exact ⟨hin, hcl⟩
          refine ⟨hgood.1, ?_⟩
          rw [← cell_update_away bs board0 stn x y
            (x + dx * ((i + 1 : Nat) : Int)) (y + dy * ((i + 1 : Nat) : Int))
            hx hgood.1 (hstep ((i + 1 : Nat) : Int) (by push_cast; omega))]
          exact hgood.2
        · refine Or.inr ?_
          rwa [show ((nf : Int) + 1) = ((nf + 1 : Nat) : Int) from by push_cast; ring]
      · refine Or.inl ?_
        rwa [show ((nf : Int) + 1) = ((nf + 1 : Nat) : Int) from by push_cast; ring]
    · refine Or.inl ?_
      rwa [show ((nf : Int) + 1) = ((nf + 1 : Nat) : Int) from by push_cast; ring]
    · refine Or.inr ?_
      rwa [show ((nf : Int) + 1) = ((nf + 1 : Nat) : Int) from by push_cast; ring]
  · rcases hsB with hnb4 | hblk | hblk
    · by_cases hin : inb bs (x - dx * ((nb + 1 : Nat) : Int))
          (y - dy * ((nb + 1 : Nat) : Int))
      · by_cases hcl : cell bs
            (fun p => if p = xy_to_pos bs x.toNat y.toNat then stn else board0 p)
            (x - dx * ((nb + 1 : Nat) : Int)) (y - dy * ((nb + 1 : Nat) : Int)) = stn
        · exfalso
          apply hold
          subst hnb4
          refine ⟨stn, hst, (dx, dy), hd, x - dx * 5, y - dy * 5, fun i hi => ?_⟩
          have heq : ∀ j : Nat, j < 5 →
              (x - dx * 5 + dx * (j : Int) = x - dx * ((5 - j : Nat) : Int) ∧
               y - dy * 5 + dy * (j : Int) = y - dy * ((5 - j : Nat) : Int)) := by
            intro j hj
            have hc : ((5 - j : Nat) : Int) = 5 - (j : Int) := by omega
            rw [hc]
            constructor <;> ring
          obtain ⟨hj1, hj2⟩ := heq i hi
          rw [hj1, hj2]
          have hgood : inb bs (x - dx * ((5 - i : Nat) : Int))
              (y - dy * ((5 - i : Nat) : Int)) ∧
              cell bs (fun p => if p = xy_to_pos bs x.toNat y.toNat then stn
                else board0 p) (x - dx * ((5 - i : Nat) : Int))
                (y - dy * ((5 - i : Nat) : Int)) = stn := by
            rcases Nat.lt_or_ge i 1 with hi1 | hi1
            · have hi0 : i = 0 := by omega
              subst hi0
              exact ⟨hin, hcl⟩
            · have hk : 5 - i = (4 - i) + 1 := by omega
              rw [hk]
              exact hgB (4 - i) (by omega)
          refine ⟨hgood.1, ?_⟩
          have hs1 : ¬ (x - dx * ((5 - i : Nat) : Int) = x ∧
              y - dy * ((5 - i : Nat) : Int) = y) := by
            rintro ⟨e1, e2⟩
            refine hstep ((5 - i : Nat) : Int) (by push_cast; omega) ⟨?_, ?_⟩ <;>
              [linarith; linarith]
          rw [← cell_update_away bs board0 stn x y
            (x - dx * ((5 - i : Nat) : Int)) (y - dy * ((5 - i : Nat) : Int))
            hx hgood.1 hs1]
          exact hgood.2
        · refine Or.inr ?_
          rwa [show ((nb : Int) + 1) = ((nb + 1 : Nat) : Int) from by push_cast; ring]
      · refine Or.inl ?_
        rwa [show ((nb : Int) + 1) = ((nb + 1 : Nat) : Int) from by push_cast; ring]
    · refine Or.inl ?_
      rwa [show ((nb : Int) + 1) = ((nb + 1 : Nat) : Int) from by push_cast; ring]
    · refine Or.inr ?_
      rwa [show ((nb : Int) + 1) = ((nb + 1 : Nat) : Int) from by push_cast; ring]

end Gomoku


namespace Gomoku

/-- Behaviour of a successful gomoku placement with respect to win
detection, assuming the pre-state satisfies the running invariant. -/
theorem make_move_win_spec (g : State) (pid : String) (x y : Int)
    (g' : State) (msg : String)
    (hct : g.current_turn ≠ Stone.EMPTY)
    (hinv : g.is_finished = false →
      ¬ has_five g.board_size g.board ∧ g.winner = none ∧ g.win_line = none)
    (hm : make_move g pid x y = (g', true, msg)) :
    ((g'.is_finished = true ∧ g'.winner = some g.current_turn) ↔
      five_through g.board_size g'.board g.current_turn x y) ∧
    (g'.is_finished = true ∧ g'.winner = some g.current_turn →
      g'.win_line.isSome = true) ∧
    (∀ line, g'.win_line = some line →
      ∃ d ∈ axis_dirs, ∃ a b : Nat,
        max_run g.board_size g'.board g.current_turn x y d.1 d.2 a b ∧
        5 ≤ 1 + a + b ∧
        line = xy_to_pos g.board_size x.toNat y.toNat ::
          ((List.range b).map (fun k =>
             xy_to_pos g.board_size (x + d.1 * ((k + 1 : Nat) : Int)).toNat
               (y + d.2 * ((k + 1 : Nat) : Int)).toNat) ++
           (List.range a).map (fun k =>
             xy_to_pos g.board_size (x - d.1 * ((k + 1 : Nat) : Int)).toNat
               (y - d.2 * ((k + 1 : Nat) : Int)).toNat))) ∧
    g'.current_turn ≠ Stone.EMPTY ∧
    g'.board_size = g.board_size ∧
    (g'.is_finished = false →
      ¬ has_five g'.board_size g'.board ∧ g'.winner = none ∧ g'.win_line = none) := by
  simp only [make_move] at hm
  split at hm
  next => simp at hm
  rename_i hfin0
  split at hm
  next => simp at hm
  split at hm
  next => simp at hm
  split at hm
  next => simp at hm
  split at hm
  next => simp at hm
  rename_i hrange0
  split at hm
  next => simp at hm
  rename_i hocc0
  have hfin : g.is_finished = false := by simpa using hfin0
  have hx : inb g.board_size x y := not_not.mp hrange0
  obtain ⟨hold, hwn, hwl⟩ := hinv hfin
  have hb1 : (fun p => if p = xy_to_pos g.board_size x.toNat y.toNat
      then g.current_turn else g.board p)
      (xy_to_pos g.board_size x.toNat y.toNat) = g.current_turn := by simp
  have hst : (fun p => if p = xy_to_pos g.board_size x.toNat y.toNat
      then g.current_turn else g.board p)
      (xy_to_pos g.board_size x.toNat y.toNat) ≠ Stone.EMPTY := by
    rw [hb1]; exact hct
  have hcw := check_win_spec g.board_size
    (fun p => if p = xy_to_pos g.board_size x.toNat y.toNat
      then g.current_turn else g.board p) x y hx hst
  rw [hb1] at hcw
  obtain ⟨hiff, hsome⟩ := hcw
  split at hm
  next line heq =>
    obtain ⟨hg, -⟩ := Prod.mk.injEq .. |>.mp hm
    subst hg
    refine ⟨?_, ?_, ?_, hct, rfl, ?_⟩
    · exact iff_of_true ⟨rfl, rfl⟩ (hiff.mp (by rw [heq]; rfl))
    · intro _; rfl
    · intro line' hline'
      cases Option.some.inj hline'
      obtain ⟨d, hd, nf, nb, hnf, hnb, hlen, hrd, hshape⟩ := hsome line heq
      refine ⟨d, hd, nb, nf, ?_, by omega, hshape⟩
      exact run_data_max_run g.board_size g.board g.current_turn x y d.1 d.2
        nf nb hx hct hd hold hrd
    · intro h; simp at h
  next heq =>
    split at hm
    next hfull =>
      obtain ⟨hg, -⟩ := Prod.mk.injEq .. |>.mp hm
      subst hg
      refine ⟨?_, ?_, ?_, hct, rfl, ?_⟩
      · refine iff_of_false ?_ ?_
        · rintro ⟨-, hw⟩
          rw [hwn] at hw
          exact Option.noConfusion hw
        · intro hf
          have := hiff.mpr hf
          rw [heq] at this
          exact Option.noConfusion (Option.eq_some_of_isSome this)
      · rintro ⟨-, hw⟩
        rw [hwn] at hw
        exact Option.noConfusion hw
      · intro line hl
        rw [hwl] at hl
        exact Option.noConfusion hl
      · intro h; simp at h
    next hfull =>
      obtain ⟨hg, -⟩ := Prod.mk.injEq .. |>.mp hm
      subst hg
      refine ⟨?_, ?_, ?_, ?_, rfl, ?_⟩
      · refine iff_of_false ?_ ?_
        · rintro ⟨hf, -⟩
          rw [hfin] at hf
          exact Bool.noConfusion hf
        · intro hf
          have := hiff.mpr hf
          rw [heq] at this
          exact Option.noConfusion (Option.eq_some_of_isSome this)
      · rintro ⟨hf, -⟩
        rw [hfin] at hf
        exact Bool.noConfusion hf
      · intro line hl
        rw [hwl] at hl
        exact Option.noConfusion hl
      · dsimp only
        split <;> simp
      · intro _
        refine ⟨?_, hwn, hwl⟩
        intro hhf
        have hft := has_five_update g.board_size g.board g.current_turn x y hx hold hhf
        have := hiff.mpr hft
        rw [heq] at this
        exact Option.noConfusion (Option.eq_some_of_isSome this)

/-- A failed gomoku placement returns the state unchanged. -/
theorem make_move_not_ok (g : State) (pid : String) (x y : Int) (g' : State)
    (msg : String) (h : make_move g pid x y = (g', false, msg)) : g' = g := by
  simp only [make_move] at h
  split at h
  next => exact (Prod.mk.injEq .. |>.mp h).1.symm
  split at h
  next => exact (Prod.mk.injEq .. |>.mp h).1.symm
  split at h
  next => exact (Prod.mk.injEq .. |>.mp h).1.symm
  split at h
  next => exact (Prod.mk.injEq .. |>.mp h).1.symm
  split at h
  next => exact (Prod.mk.injEq .. |>.mp h).1.symm
  split at h
  next => exact (Prod.mk.injEq .. |>.mp h).1.symm
  split at h
  next => simp at h
  next =>
    split at h
    next => simp at h
    next => simp at h

/-- Reachability invariant for gomoku sessions: the side to move is a real
colour, and an unfinished board has no five in a row, no winner and no
recorded win line. -/
theorem inv_reachable (g : State) (hg : Reachable g) :
    g.current_turn ≠ Stone.EMPTY ∧
    (g.is_finished = false →
      ¬ has_five g.board_size g.board ∧ g.winner = none ∧ g.win_line = none) := by
  induction hg with
  | create bs pid hbs =>
    refine ⟨fun h => Stone.noConfusion h, fun _ => ⟨?_, rfl, rfl⟩⟩
    rintro ⟨st, hstne, d, hd, x0, y0, hfa⟩
    obtain ⟨hbi, hci⟩ := hfa 0 (by norm_num)
    simp only [cell] at hci
    exact hstne hci.symm
  | join g pid hgr ih =>
    simp only [Gomoku.join]
    split_ifs <;> exact ih
  | make_move g pid x y hgr ih =>
    rcases hf : Gomoku.make_move g pid x y with ⟨g', ok, msg⟩
    cases ok with
    | false => rw [make_move_not_ok g pid x y g' msg hf]; exact ih
    | true =>
      have h := make_move_win_spec g pid x y g' msg ih.1 ih.2 hf
      exact ⟨h.2.2.2.1, h.2.2.2.2.2⟩
  | surrender g pid hgr ih =>
    simp only [Gomoku.surrender]
    split_ifs
    · exact ih
    · exact ⟨ih.1, fun h => by simp at h⟩
    · exact ⟨ih.1, fun h => by simp at h⟩
    · exact ih

end Gomoku

/-- C9: for every reachable gomoku session, a successful placement finishes
the game with the mover as winner exactly when one of the four axes through
the placed cell holds five contiguous stones of the mover's colour, in that
case win_line records the full contiguous run through the cell (forward
extent, then backward extent, possibly more than five cells); unfinished
reachable boards never contain five in a row. -/
theorem gomoku_win_detection (g : Gomoku.State) (hg : Gomoku.Reachable g) :
    (g.is_finished = false →
      ¬ Gomoku.has_five g.board_size g.board ∧ g.winner = none) ∧
    (∀ pid x y g' msg, Gomoku.make_move g pid x y = (g', true, msg) →
      ((g'.is_finished = true ∧ g'.winner = some g.current_turn) ↔
        Gomoku.five_through g.board_size g'.board g.current_turn x y) ∧
      (g'.is_finished = true ∧ g'.winner = some g.current_turn →
        g'.win_line.isSome = true) ∧
      (∀ line, g'.win_line = some line →
        ∃ d ∈ Gomoku.axis_dirs, ∃ a b : Nat,
          Gomoku.max_run g.board_size g'.board g.current_turn x y d.1 d.2 a b ∧
          5 ≤ 1 + a + b ∧
          line = Gomoku.xy_to_pos g.board_size x.toNat y.toNat ::
            ((List.range b).map (fun k =>
               Gomoku.xy_to_pos g.board_size
                 (x + d.1 * ((k + 1 : Nat) : Int)).toNat
                 (y + d.2 * ((k + 1 : Nat) : Int)).toNat) ++
             (List.range a).map (fun k =>
               Gomoku.xy_to_pos g.board_size
                 (x - d.1 * ((k + 1 : Nat) : Int)).toNat
                 (y - d.2 * ((k + 1 : Nat) : Int)).toNat)))) := by
  obtain ⟨hct, hinv⟩ := Gomoku.inv_reachable g hg
  refine ⟨fun hf => ⟨(hinv hf).1, (hinv hf).2.1⟩, ?_⟩
  intro pid x y g' msg hm
  have h := Gomoku.make_move_win_spec g pid x y g' msg hct hinv hm
  exact ⟨h.1, h.2.1, h.2.2.1⟩

/-- Witness for C9: the freshly joined 15×15 demo session, reachable via
create and join. -/
theorem gomoku_win_detection_witness :
    (Gomoku.demo_joined.is_finished = false →
      ¬ Gomoku.has_five Gomoku.demo_joined.board_size Gomoku.demo_joined.board ∧
      Gomoku.demo_joined.winner = none) ∧
    (∀ pid x y g' msg,
      Gomoku.make_move Gomoku.demo_joined pid x y = (g', true, msg) →
      ((g'.is_finished = true ∧ g'.winner = some Gomoku.demo_joined.current_turn) ↔
        Gomoku.five_through Gomoku.demo_joined.board_size g'.board
          Gomoku.demo_joined.current_turn x y) ∧
      (g'.is_finished = true ∧ g'.winner = some Gomoku.demo_joined.current_turn →
        g'.win_line.isSome = true) ∧
      (∀ line, g'.win_line = some line →
        ∃ d ∈ Gomoku.axis_dirs, ∃ a b : Nat,
          Gomoku.max_run Gomoku.demo_joined.board_size g'.board
            Gomoku.demo_joined.current_turn x y d.1 d.2 a b ∧
          5 ≤ 1 + a + b ∧
          line = Gomoku.xy_to_pos Gomoku.demo_joined.board_size x.toNat y.toNat ::
            ((List.range b).map (fun k =>
               Gomoku.xy_to_pos Gomoku.demo_joined.board_size
                 (x + d.1 * ((k + 1 : Nat) : Int)).toNat
                 (y + d.2 * ((k + 1 : Nat) : Int)).toNat) ++
             (List.range a).map (fun k =>
               Gomoku.xy_to_pos Gomoku.demo_joined.board_size
                 (x - d.1 * ((k + 1 : Nat) : Int)).toNat
                 (y - d.2 * ((k + 1 : Nat) : Int)).toNat)))) :=
  gomoku_win_detection Gomoku.demo_joined
    (Gomoku.Reachable.join _ "bob"
      (Gomoku.Reachable.create 15 "alice" (Or.inr (Or.inl rfl))))
